import Mathlib

/-!
Username and nickname change logging of logs/plugin_bot.go

A shallow embedding of the identity-change pipeline of `logs/plugin_bot.go`:
the presence pre-filter (`HandlePresenceUpdate`), the intake queue (`queueEvt`),
the accumulator loop (`EvtProcesser`), the two change detectors (`CheckUsername`,
`CheckNickname`) and the batch committer (`ProcessBatch`).

Storage is modelled as two append-only tables kept in id order. Every storage
operation of a transaction is recorded in a log, and an environment decides which
operation fails (by its position in the transaction) and what the config resolver
answers. Row ids and `created_at` columns are represented by the position of a row
in its table.
-/

namespace Logs

/-! ## Data model -/

/-- Go `error` values that the pipeline can see: `sql.ErrNoRows`, any other storage
failure, and `errors.Wrap`. A nil error is `none : Option Error`. -/
inductive Error where
  | ErrNoRows
  | storage
  | wrap (cause : Error) (msg : String)
  deriving DecidableEq, Repr

/-- The fields of `discordgo.User` that the pipeline reads. -/
structure User where
  ID : Int
  Username : String
  deriving DecidableEq, Repr

/-- The struct `UserGuildPair`. -/
structure UserGuildPair where
  GuildID : Int
  User : User
  deriving DecidableEq, Repr

/-- The fields of `discordgo.Member` that the pipeline reads. -/
structure Member where
  GuildID : Int
  User : User
  Nick : String
  deriving DecidableEq, Repr

/-- The fields of `discordgo.PresenceUpdate` that the pipeline reads. -/
structure PresenceUpdate where
  GuildID : Int
  User : User
  Nick : String
  deriving DecidableEq, Repr

/-- The fields of `models.GuildLoggingConfig` that the pipeline reads
(`UsernameLoggingEnabled.Bool`, `NicknameLoggingEnabled.Bool`). -/
structure GuildLoggingConfig where
  GuildID : Int
  UsernameLoggingEnabled : Bool
  NicknameLoggingEnabled : Bool
  deriving DecidableEq, Repr

/-- A row of `username_listings`, as built by `CheckUsername`. -/
structure UsernameListing where
  UserID : Int
  Username : String
  deriving DecidableEq, Repr

/-- A row of `nickname_listings`, as built by `CheckNickname`. The guild id is kept
as the integer whose decimal rendering (`discordgo.StrID`) the column holds. -/
structure NicknameListing where
  UserID : Int
  GuildID : Int
  Nickname : String
  deriving DecidableEq, Repr

/-- The two listing tables, each in ascending id order (new rows go to the end). -/
structure DB where
  username_listings : List UsernameListing
  nickname_listings : List NicknameListing
  deriving DecidableEq, Repr

/-- A storage operation issued inside the transaction of `ProcessBatch`. -/
inductive Op where
  | prepareNick
  | prepareUsername
  | getConfig (gID : Int)
  | usernameQuery (userID : Int)
  | usernameInsert (l : UsernameListing)
  | nicknameQuery (userID guildID : Int)
  | nicknameInsert (l : NicknameListing)
  deriving DecidableEq, Repr

/-- The state of an open transaction: the tables as the transaction sees them and
the operations issued so far, oldest first. -/
structure Tx where
  db : DB
  log : List Op
  deriving DecidableEq, Repr

/-- What the outside world does during one transaction. `fails n` tells whether the
statement issued when `n` operations have already been logged fails.
`GetConfigCached n gID` is the answer of the config resolver `GetConfigCached(tx, gID)`
when it is called at that point; its body reads the live guild cache and `GetConfig`,
both of which live outside this file. -/
structure Env where
  fails : Nat → Bool
  GetConfigCached : Nat → Int → Except Error GuildLoggingConfig

/-! ## Storage primitives -/

/-- A call of `tx.Prepare` for one of the two select statements. -/
def Prepare (env : Env) (stmt : Op) (tx : Tx) : Option Error × Tx :=
  (if env.fails tx.log.length then some Error.storage else none,
    { tx with log := tx.log ++ [stmt] })

/-- The call `GetConfigCached(tx, gID)` made by `ProcessBatch`. -/
def GetConfigCached (env : Env) (tx : Tx) (gID : Int) :
    Except Error GuildLoggingConfig × Tx :=
  (env.GetConfigCached tx.log.length gID, { tx with log := tx.log ++ [Op.getConfig gID] })

/-- Result row of
`select username from username_listings where user_id=$1 order by id desc limit 1`. -/
def lastUsernameRow (db : DB) (userID : Int) : Option String :=
  ((db.username_listings.filter (fun l => l.UserID = userID)).getLast?).map
    (fun l => l.Username)

/-- Result row of `select nickname from nickname_listings where user_id=$1 AND
guild_id=$2 order by id desc limit 1`. -/
def lastNicknameRow (db : DB) (userID guildID : Int) : Option String :=
  ((db.nickname_listings.filter
      (fun l => l.UserID = userID ∧ l.GuildID = guildID)).getLast?).map
    (fun l => l.Nickname)

/-- The pair `usernameStmt.QueryRow(id)` / `row.Scan(&lastUsername)`: the scanned
value (the zero value when nothing was scanned), the error, the new state. -/
def usernameQueryRowScan (env : Env) (tx : Tx) (userID : Int) :
    String × Option Error × Tx :=
  let tx1 : Tx := { tx with log := tx.log ++ [Op.usernameQuery userID] }
  if env.fails tx.log.length then ("", some Error.storage, tx1)
  else
    match lastUsernameRow tx.db userID with
    | some s => (s, none, tx1)
    | none => ("", some Error.ErrNoRows, tx1)

/-- The pair `nicknameStmt.QueryRow(userID, guildID)` / `row.Scan(&lastNickname)`. -/
def nicknameQueryRowScan (env : Env) (tx : Tx) (userID guildID : Int) :
    String × Option Error × Tx :=
  let tx1 : Tx := { tx with log := tx.log ++ [Op.nicknameQuery userID guildID] }
  if env.fails tx.log.length then ("", some Error.storage, tx1)
  else
    match lastNicknameRow tx.db userID guildID with
    | some s => (s, none, tx1)
    | none => ("", some Error.ErrNoRows, tx1)

/-- The call `listing.Insert(ctx, exec, boil.Infer())` on a `UsernameListing`. -/
def insertUsernameListing (env : Env) (l : UsernameListing) (tx : Tx) : Option Error × Tx :=
  if env.fails tx.log.length then
    (some Error.storage, { tx with log := tx.log ++ [Op.usernameInsert l] })
  else
    (none, { db := { tx.db with username_listings := tx.db.username_listings ++ [l] },
             log := tx.log ++ [Op.usernameInsert l] })

/-- The call `listing.Insert(ctx, exec, boil.Infer())` on a `NicknameListing`. -/
def insertNicknameListing (env : Env) (l : NicknameListing) (tx : Tx) : Option Error × Tx :=
  if env.fails tx.log.length then
    (some Error.storage, { tx with log := tx.log ++ [Op.nicknameInsert l] })
  else
    (none, { db := { tx.db with nickname_listings := tx.db.nickname_listings ++ [l] },
             log := tx.log ++ [Op.nicknameInsert l] })

/-! ## Change detectors -/

/-- The function `CheckUsername`. -/
def CheckUsername (env : Env) (tx : Tx) (user : User) : Option Error × Tx :=
  match usernameQueryRowScan env tx user.ID with
  | (lastUsername, err, tx1) =>
    if err = none ∧ lastUsername = user.Username then
      -- Not changed
      (none, tx1)
    else if err ≠ none ∧ err ≠ some Error.ErrNoRows then
      -- Other error
      (none, tx1)
    else
      insertUsernameListing env { UserID := user.ID, Username := user.Username } tx1

/-- The function `CheckNickname`. -/
def CheckNickname (env : Env) (tx : Tx) (userID guildID : Int) (nickname : String) :
    Option Error × Tx :=
  match nicknameQueryRowScan env tx userID guildID with
  | (lastNickname, err, tx1) =>
    if err = some Error.ErrNoRows ∧ nickname = "" then
      (none, tx1)
    else if err = none ∧ lastNickname = nickname then
      -- Not changed
      (none, tx1)
    else if err ≠ some Error.ErrNoRows ∧ err ≠ none then
      (err, tx1)
    else
      insertNicknameListing env
        { UserID := userID, GuildID := guildID, Nickname := nickname } tx1

/-! ## Batch committer -/

/-- The inner loop `for _, c := range configs` of the two config-finding loops:
whether a config for `gID` is already in `configs`. -/
def configKnown : List GuildLoggingConfig → Int → Bool
  | [], _ => false
  | c :: cs, gID => if c.GuildID = gID then true else configKnown cs gID

/-- The loops `OUTERUSERS` and `OUTERMEMBERS`, run over the guild ids of the queued
items; `msg` is the text the error is wrapped with. -/
def findConfigs (env : Env) (msg : String) :
    List Int → List GuildLoggingConfig → Tx → Option Error × List GuildLoggingConfig × Tx
  | [], configs, tx => (none, configs, tx)
  | gID :: rest, configs, tx =>
    if configKnown configs gID then findConfigs env msg rest configs tx
    else
      match GetConfigCached env tx gID with
      | (Except.error err, tx1) => (some (Error.wrap err msg), configs, tx1)
      | (Except.ok config, tx1) => findConfigs env msg rest (configs ++ [config]) tx1

/-- The inner loop of `OUTERUSERS_UPDT`: true when the first config of the guild
has username logging switched off (`continue OUTERUSERS_UPDT`). -/
def usernameLoggingDisabled : List GuildLoggingConfig → Int → Bool
  | [], _ => false
  | c :: cs, gID =>
    if c.GuildID = gID then !c.UsernameLoggingEnabled else usernameLoggingDisabled cs gID

/-- The loop `OUTERUSERS_UPDT` ("update users first"). -/
def updateUsers (env : Env) (configs : List GuildLoggingConfig) :
    List UserGuildPair → Tx → Option Error × Tx
  | [], tx => (none, tx)
  | v :: rest, tx =>
    if usernameLoggingDisabled configs v.GuildID then updateUsers env configs rest tx
    else
      match CheckUsername env tx v.User with
      | (some err, tx1) => (some (Error.wrap err "user username check"), tx1)
      | (none, tx1) => updateUsers env configs rest tx1

/-- The "find config" loop of the member loop: the pair `(checkNick, checkUser)`. -/
def memberFlags : List GuildLoggingConfig → Int → Bool × Bool
  | [], _ => (false, false)
  | c :: cs, gID =>
    if c.GuildID = gID then (c.NicknameLoggingEnabled, c.UsernameLoggingEnabled)
    else memberFlags cs gID

/-- The loop "update members". -/
def updateMembers (env : Env) (configs : List GuildLoggingConfig) :
    List Member → Tx → Option Error × Tx
  | [], tx => (none, tx)
  | v :: rest, tx =>
    match memberFlags configs v.GuildID with
    | (checkNick, checkUser) =>
      if !checkNick && !checkUser then updateMembers env configs rest tx
      else
        match CheckUsername env tx v.User with
        | (some err, tx1) => (some (Error.wrap err "members username check"), tx1)
        | (none, tx1) =>
          match CheckNickname env tx1 v.User.ID v.GuildID v.Nick with
          | (some err, tx2) => (some (Error.wrap err "members nickname check"), tx2)
          | (none, tx2) => updateMembers env configs rest tx2

/-- The closure that `ProcessBatch` hands to `common.SqlTX`. -/
def ProcessBatchTx (env : Env) (users : List UserGuildPair) (members : List Member)
    (tx : Tx) : Option Error × Tx :=
  match Prepare env Op.prepareNick tx with
  | (some err, tx1) => (some (Error.wrap err "nick stmnt prepare"), tx1)
  | (none, tx1) =>
    match Prepare env Op.prepareUsername tx1 with
    | (some err, tx2) => (some (Error.wrap err "username stmnt prepare"), tx2)
    | (none, tx2) =>
      match findConfigs env "users_configs" (users.map (fun v => v.GuildID)) [] tx2 with
      | (some err, _, tx3) => (some err, tx3)
      | (none, configs, tx3) =>
        match findConfigs env "members_configs" (members.map (fun v => v.GuildID))
            configs tx3 with
        | (some err, _, tx4) => (some err, tx4)
        | (none, configs, tx4) =>
          match updateUsers env configs users tx4 with
          | (some err, tx5) => (some err, tx5)
          | (none, tx5) => updateMembers env configs members tx5

/-- Outcome of one `ProcessBatch` call: the returned error, the tables afterwards,
and the operations the transaction issued. -/
structure BatchResult where
  err : Option Error
  db : DB
  log : List Op
  deriving DecidableEq, Repr

/-- Modelled from the spec: `common.SqlTX`, which is defined outside this file. It
opens one transaction for the whole batch and runs the closure in it; when the
closure returns an error the transaction is aborted and the tables stay as they
were, otherwise everything the closure wrote is committed. -/
def SqlTX (f : Tx → Option Error × Tx) (db : DB) : BatchResult :=
  match f { db := db, log := [] } with
  | (some err, tx) => { err := some err, db := db, log := tx.log }
  | (none, tx) => { err := none, db := tx.db, log := tx.log }

/-- The function `ProcessBatch`. -/
def ProcessBatch (env : Env) (users : List UserGuildPair) (members : List Member)
    (db : DB) : BatchResult :=
  SqlTX (ProcessBatchTx env users members) db

/-! ## Presence pre-filter and intake queue -/

/-- An event taken from `evtChan`, by the dynamic types the switch in `EvtProcesser`
tells apart; `other` stands for a value of any other type. -/
inductive Evt where
  | PresenceUpdate (t : PresenceUpdate)
  | GuildMemberUpdate (m : Member)
  | GuildMemberAdd (m : Member)
  | Member (m : Member)
  | other
  deriving DecidableEq, Repr

/-- The channel `evtChan` (capacity 1000): the buffered events, oldest first, and the
events held by one-shot sender goroutines that wait for room. -/
structure Chan where
  buf : List Evt
  senders : List Evt
  deriving DecidableEq, Repr

/-- The function `queueEvt`: a non-blocking send, and a spawned sender when the
buffer is full. -/
def queueEvt (evt : Evt) (ch : Chan) : Chan :=
  if ch.buf.length < 1000 then { ch with buf := ch.buf ++ [evt] }
  else { ch with senders := ch.senders ++ [evt] }

/-- The fields of `dstate.MemberState` read by `HandlePresenceUpdate`. -/
structure MemberState where
  PresenceSet : Bool
  MemberSet : Bool
  Username : String
  Nick : String
  deriving DecidableEq, Repr

/-- The lookup `gs.Member(false, id)` of a `dstate.GuildState`. -/
structure GuildState where
  Member : Int → Option MemberState

/-- The lookup `bot.State.Guild(true, id)` of the live state. -/
structure BotState where
  Guild : Int → Option GuildState

/-- The function `HandlePresenceUpdate`. -/
def HandlePresenceUpdate (state : BotState) (pu : PresenceUpdate) (ch : Chan) : Chan :=
  match state.Guild pu.GuildID with
  | none => queueEvt (Evt.PresenceUpdate pu) ch
  | some gs =>
    match gs.Member pu.User.ID with
    | none => queueEvt (Evt.PresenceUpdate pu) ch
    | some ms =>
      if !ms.PresenceSet || !ms.MemberSet then queueEvt (Evt.PresenceUpdate pu) ch
      else if pu.User.Username ≠ "" ∧ pu.User.Username ≠ ms.Username then
        queueEvt (Evt.PresenceUpdate pu) ch
      else if pu.Nick ≠ ms.Nick then queueEvt (Evt.PresenceUpdate pu) ch
      else ch

/-- The live snapshot of the member a presence update is about, when one is
available: the guild state is present, the member state is present, and both its
presence and its member data are set. -/
def snapshot (state : BotState) (pu : PresenceUpdate) : Option MemberState :=
  match state.Guild pu.GuildID with
  | none => none
  | some gs =>
    match gs.Member pu.User.ID with
    | none => none
    | some ms => if ms.PresenceSet && ms.MemberSet then some ms else none

/-! ## Accumulator loop -/

/-- The state of the `EvtProcesser` loop: its two buffers and the tables it writes
to, together with the arguments of every `ProcessBatch` call made so far. -/
structure Processer where
  queuedMembers : List Member
  queuedUsers : List UserGuildPair
  db : DB
  batches : List (List UserGuildPair × List Member)
  deriving DecidableEq, Repr

/-- The branch `case e := <-evtChan` of `EvtProcesser`. -/
def EvtProcesser_recv (e : Evt) (s : Processer) : Processer :=
  match e with
  | Evt.PresenceUpdate t =>
    if t.User.Username = "" then s
    else { s with queuedUsers := s.queuedUsers ++ [{ GuildID := t.GuildID, User := t.User }] }
  | Evt.GuildMemberUpdate m => { s with queuedMembers := s.queuedMembers ++ [m] }
  | Evt.GuildMemberAdd m => { s with queuedMembers := s.queuedMembers ++ [m] }
  | Evt.Member m => { s with queuedMembers := s.queuedMembers ++ [m] }
  | Evt.other => s

/-- The branch `case <-ticker.C` of `EvtProcesser`; `env` is what the outside world
does during the transaction of this tick. -/
def EvtProcesser_tick (env : Env) (s : Processer) : Processer :=
  let r := ProcessBatch env s.queuedUsers s.queuedMembers s.db
  let s1 : Processer :=
    { s with db := r.db, batches := s.batches ++ [(s.queuedUsers, s.queuedMembers)] }
  if r.err = none then
    -- reset the slices
    { s1 with queuedUsers := [], queuedMembers := [] }
  else s1

/-- What the `select` of one loop iteration of `EvtProcesser` picks. -/
inductive Select where
  | recv (e : Evt)
  | tick (env : Env)

/-- One iteration of the `for` loop of `EvtProcesser`. -/
def EvtProcesser_step (s : Processer) : Select → Processer
  | Select.recv e => EvtProcesser_recv e s
  | Select.tick env => EvtProcesser_tick env s

/-- The loop of `EvtProcesser` run over a finite schedule of iterations. -/
def EvtProcesser (schedule : List Select) (s : Processer) : Processer :=
  schedule.foldl EvtProcesser_step s

/-- The state in which `EvtProcesser` starts, over the given tables. -/
def Processer.start (db : DB) : Processer :=
  { queuedMembers := [], queuedUsers := [], db := db, batches := [] }

/-! ## Deletion marker -/

/-- Modelled from the spec: a row of the message log table (`models.Messages2`, which is
declared outside this file). It is identified by its message id and carries the boolean
`deleted` column; `Content` stands for the remaining columns, none of which the deletion
marker writes. -/
structure Messages2 where
  ID : Int
  Deleted : Bool
  Content : String
  deriving DecidableEq, Repr

/-- The message log as the deletion marker sees it: the rows of the table, the number of
update statements issued so far, and the errors handed to `logger` so far. -/
structure MessageLog where
  rows : List Messages2
  updates : Nat
  logged : List Error
  deriving DecidableEq, Repr

/-- The function `markLoggedMessageAsDeleted`: one `UpdateAllG` that sets `deleted` on the
rows whose id is `mID`. `fails n` tells whether the update issued when `n` updates have
already been issued fails; a failed update writes nothing. -/
def markLoggedMessageAsDeleted (fails : Nat → Bool) (mID : Int) (st : MessageLog) :
    Option Error × MessageLog :=
  if fails st.updates then (some Error.storage, { st with updates := st.updates + 1 })
  else
    (none,
      { st with
        rows := st.rows.map (fun r => if r.ID = mID then { r with Deleted := true } else r),
        updates := st.updates + 1 })

/-- The payload of the two event types `HandleMsgDelete` is registered for:
`EventMessageDelete` with the id of one message, `EventMessageDeleteBulk` with a list of
message ids. -/
inductive DeleteEvent where
  | MessageDelete (ID : Int)
  | MessageDeleteBulk (Messages : List Int)
  deriving DecidableEq, Repr

/-- One marking inside `HandleMsgDelete`: the call of `markLoggedMessageAsDeleted`
followed by `if err != nil` and the call to `logger`. -/
def markAndLog (fails : Nat → Bool) (st : MessageLog) (mID : Int) : MessageLog :=
  match markLoggedMessageAsDeleted fails mID st with
  | (some err, st1) => { st1 with logged := st1.logged ++ [err] }
  | (none, st1) => st1

/-- The function `HandleMsgDelete`. -/
def HandleMsgDelete (fails : Nat → Bool) (evt : DeleteEvent) (st : MessageLog) : MessageLog :=
  match evt with
  | DeleteEvent.MessageDelete mID => markAndLog fails st mID
  | DeleteEvent.MessageDeleteBulk messages => messages.foldl (markAndLog fails) st

/-! ## Notions the properties are stated with -/

/-- The earliest row of a (user, guild) pair in `nickname_listings`. -/
def firstNicknameRow (db : DB) (userID guildID : Int) : Option String :=
  (db.nickname_listings.find? (fun l => l.UserID = userID ∧ l.GuildID = guildID)).map
    (fun l => l.Nickname)

/-- One call of `CheckNickname`: the environment it runs in, the operations its
transaction has already issued, and its arguments. -/
structure NicknameCall where
  env : Env
  log : List Op
  userID : Int
  guildID : Int
  nickname : String

/-- The tables after a sequence of `CheckNickname` calls, oldest first. -/
def runNicknameCalls (calls : List NicknameCall) (db : DB) : DB :=
  calls.foldl
    (fun d c => (CheckNickname c.env { db := d, log := c.log } c.userID c.guildID c.nickname).2.db)
    db

/-- The earliest row of every (user, guild) pair holds a non-empty nickname. -/
def FirstNicknameNonEmpty (rows : List NicknameListing) : Prop :=
  ∀ u g : Int, (rows.find? (fun l => l.UserID = u ∧ l.GuildID = g)).map
    (fun l => l.Nickname) ≠ some ""

/-- The guild ids the config resolver was called with, in call order. -/
def resolutions : List Op → List Int
  | [] => []
  | Op.getConfig gID :: rest => gID :: resolutions rest
  | _ :: rest => resolutions rest

/-- Whether an operation is issued by a change detector (`CheckUsername`,
`CheckNickname`): a read of the latest row or an insert. -/
def isDetectorOp : Op → Bool
  | Op.usernameQuery _ => true
  | Op.usernameInsert _ => true
  | Op.nicknameQuery _ _ => true
  | Op.nicknameInsert _ => true
  | _ => false

/-- The usernames stored for a user, in creation order. -/
def usernamesOf (db : DB) (userID : Int) : List String :=
  (db.username_listings.filter (fun l => l.UserID = userID)).map (fun l => l.Username)

/-- The stored usernames of a user after one more username was handled: it is added
unless it equals the latest stored one. -/
def recordName (stored : List String) (name : String) : List String :=
  if stored.getLast? = some name then stored else stored ++ [name]

/-- The stored usernames of a user after a list of usernames was handled in order. -/
def recordNames (stored : List String) (names : List String) : List String :=
  names.foldl recordName stored

/-- The username an event carries, for presence and member events. -/
def observedUsername : Evt → Option String
  | Evt.PresenceUpdate t => some t.User.Username
  | Evt.GuildMemberUpdate m => some m.User.Username
  | Evt.GuildMemberAdd m => some m.User.Username
  | Evt.Member m => some m.User.Username
  | Evt.other => none

/-- The usernames observed in the events of a schedule, in order of arrival. -/
def observedUsernames (schedule : List Select) : List String :=
  schedule.filterMap (fun x =>
    match x with
    | Select.recv e => observedUsername e
    | Select.tick _ => none)

/-- The username that a presence event about user `u` brings into a batch; a presence
event with an empty username brings none. -/
def presenceUsername (u : Int) : Evt → Option String
  | Evt.PresenceUpdate t =>
    if t.User.ID = u ∧ t.User.Username ≠ "" then some t.User.Username else none
  | _ => none

/-- The username that a member event about user `u` brings into a batch. -/
def memberUsername (u : Int) : Evt → Option String
  | Evt.GuildMemberUpdate m => if m.User.ID = u then some m.User.Username else none
  | Evt.GuildMemberAdd m => if m.User.ID = u then some m.User.Username else none
  | Evt.Member m => if m.User.ID = u then some m.User.Username else none
  | _ => none

/-- The usernames of user `u` in the order the ticks of a schedule handle them: at each
tick, first those of the presence events received since the previous tick, then those
of the member events received since the previous tick. `seg` holds the events received
since the previous tick; events after the last tick are not handled. -/
def handledUsernames (u : Int) : List Evt → List Select → List String
  | _, [] => []
  | seg, Select.recv e :: rest => handledUsernames u (seg ++ [e]) rest
  | seg, Select.tick _ :: rest =>
    seg.filterMap (presenceUsername u) ++ seg.filterMap (memberUsername u) ++
      handledUsernames u [] rest

/-- The row a message-log row becomes once the messages `ids` are marked as deleted:
its flag is true when its id is among `ids`, and nothing else changes. -/
def markedRow (ids : List Int) (r : Messages2) : Messages2 :=
  if r.ID ∈ ids then { r with Deleted := true } else r

/-! ## Change detectors: what one call does -/

theorem usernameQueryRowScan_ok (env : Env) (tx : Tx) (userID : Int)
    (hread : env.fails tx.log.length = false) :
    usernameQueryRowScan env tx userID =
      (match lastUsernameRow tx.db userID with
        | some s => (s, none, { tx with log := tx.log ++ [Op.usernameQuery userID] })
        | none => ("", some Error.ErrNoRows,
            { tx with log := tx.log ++ [Op.usernameQuery userID] })) := by
  simp [usernameQueryRowScan, hread]

theorem nicknameQueryRowScan_ok (env : Env) (tx : Tx) (userID guildID : Int)
    (hread : env.fails tx.log.length = false) :
    nicknameQueryRowScan env tx userID guildID =
      (match lastNicknameRow tx.db userID guildID with
        | some s => (s, none, { tx with log := tx.log ++ [Op.nicknameQuery userID guildID] })
        | none => ("", some Error.ErrNoRows,
            { tx with log := tx.log ++ [Op.nicknameQuery userID guildID] })) := by
  simp [nicknameQueryRowScan, hread]

theorem lastUsernameRow_eq_none_iff (db : DB) (u : Int) :
    lastUsernameRow db u = none ↔ ∀ l ∈ db.username_listings, l.UserID ≠ u := by
  unfold lastUsernameRow
  rw [Option.map_eq_none', List.getLast?_eq_none_iff, List.filter_eq_nil_iff]
  constructor
  · intro h l hl
    simpa using h l hl
  · intro h l hl
    simpa using h l hl

theorem lastNicknameRow_eq_none_iff (db : DB) (u g : Int) :
    lastNicknameRow db u g = none ↔
      ∀ l ∈ db.nickname_listings, ¬ (l.UserID = u ∧ l.GuildID = g) := by
  unfold lastNicknameRow
  rw [Option.map_eq_none', List.getLast?_eq_none_iff, List.filter_eq_nil_iff]
  constructor
  · intro h l hl
    simpa using h l hl
  · intro h l hl
    simpa using h l hl

/-- What `CheckUsername` returns when its read succeeds. -/
theorem CheckUsername_read_ok (env : Env) (tx : Tx) (user : User)
    (hread : env.fails tx.log.length = false) :
    CheckUsername env tx user =
      if lastUsernameRow tx.db user.ID = some user.Username then
        (none, { tx with log := tx.log ++ [Op.usernameQuery user.ID] })
      else
        insertUsernameListing env { UserID := user.ID, Username := user.Username }
          { tx with log := tx.log ++ [Op.usernameQuery user.ID] } := by
  unfold CheckUsername
  rw [usernameQueryRowScan_ok env tx user.ID hread]
  cases h : lastUsernameRow tx.db user.ID with
  | none => simp
  | some s =>
    by_cases hs : s = user.Username
    · simp [hs]
    · simp [hs]

/-- What `CheckNickname` returns when its read succeeds. -/
theorem CheckNickname_read_ok (env : Env) (tx : Tx) (userID guildID : Int) (nickname : String)
    (hread : env.fails tx.log.length = false) :
    CheckNickname env tx userID guildID nickname =
      if lastNicknameRow tx.db userID guildID = some nickname ∨
          (lastNicknameRow tx.db userID guildID = none ∧ nickname = "") then
        (none, { tx with log := tx.log ++ [Op.nicknameQuery userID guildID] })
      else
        insertNicknameListing env
          { UserID := userID, GuildID := guildID, Nickname := nickname }
          { tx with log := tx.log ++ [Op.nicknameQuery userID guildID] } := by
  unfold CheckNickname
  rw [nicknameQueryRowScan_ok env tx userID guildID hread]
  cases h : lastNicknameRow tx.db userID guildID with
  | none =>
    by_cases hn : nickname = ""
    · simp [hn]
    · simp [hn]
  | some s =>
    by_cases hs : s = nickname
    · simp [hs]
    · simp [hs]


/-- C4: when the read of the latest record succeeds, `CheckUsername` inserts exactly
one `UsernameListing (userID, newUsername)` if the user has no stored row or the most
recent row holds a different username, and otherwise leaves the tables unchanged and
returns nil; in particular a user without any row gets one whatever the username is,
the empty string included. The insert appends the row at the end of the table and
returns nil, unless the insert statement itself fails, in which case its error is
returned and nothing is written. The user has no stored row exactly when the read of
the latest row finds none. -/
theorem CheckUsername_inserts_iff_changed (env : Env) (tx : Tx) (user : User)
    (hread : env.fails tx.log.length = false) :
    ((lastUsernameRow tx.db user.ID = none ∨
        ∃ s, lastUsernameRow tx.db user.ID = some s ∧ s ≠ user.Username) →
      (env.fails (tx.log.length + 1) = false →
        (CheckUsername env tx user).1 = none ∧
        (CheckUsername env tx user).2.db =
          { tx.db with username_listings :=
              tx.db.username_listings ++ [{ UserID := user.ID, Username := user.Username }] }) ∧
      (env.fails (tx.log.length + 1) = true →
        (CheckUsername env tx user).1 = some Error.storage ∧
        (CheckUsername env tx user).2.db = tx.db)) ∧
    (lastUsernameRow tx.db user.ID = some user.Username →
      (CheckUsername env tx user).1 = none ∧ (CheckUsername env tx user).2.db = tx.db) ∧
    (lastUsernameRow tx.db user.ID = none ↔
      ∀ l ∈ tx.db.username_listings, l.UserID ≠ user.ID) := by
  rw [CheckUsername_read_ok env tx user hread]
  refine ⟨?_, ?_, ?_⟩
  · intro h
    have hne : lastUsernameRow tx.db user.ID ≠ some user.Username := by
      rcases h with h | ⟨s, h, hs⟩
      · simp [h]
      · simp [h, hs]
    simp only [if_neg hne]
    constructor
    · intro hins
      simp [insertUsernameListing, hins]
    · intro hins
      simp [insertUsernameListing, hins]
  · intro h
    simp [h]
  · exact lastUsernameRow_eq_none_iff tx.db user.ID

/-- A witness for `CheckUsername_inserts_iff_changed`: the first observation of user 7
with the empty username, over empty tables. -/
theorem CheckUsername_inserts_iff_changed_witness :
    (CheckUsername ⟨fun _ => false, fun _ g => Except.ok ⟨g, true, true⟩⟩
        ⟨⟨[], []⟩, []⟩ ⟨7, ""⟩).2.db = ⟨[⟨7, ""⟩], []⟩ :=
  ((CheckUsername_inserts_iff_changed ⟨fun _ => false, fun _ g => Except.ok ⟨g, true, true⟩⟩
      ⟨⟨[], []⟩, []⟩ ⟨7, ""⟩ rfl).1 (Or.inl rfl)).1 rfl |>.2

/-- The latest row of a pair, read off the table itself: when the table splits into
`pre ++ l :: post` with `l` a row of the pair and no row of the pair in `post`, the
select statement of `CheckNickname` returns the nickname of `l`. -/
theorem lastNicknameRow_of_split (db : DB) (u g : Int) (pre post : List NicknameListing)
    (l : NicknameListing) (hrows : db.nickname_listings = pre ++ l :: post)
    (hu : l.UserID = u) (hg : l.GuildID = g)
    (hpost : ∀ x ∈ post, ¬ (x.UserID = u ∧ x.GuildID = g)) :
    lastNicknameRow db u g = some l.Nickname := by
  have hp : post.filter (fun x => decide (x.UserID = u) && decide (x.GuildID = g)) = [] := by
    rw [List.filter_eq_nil_iff]
    intro x hx
    simpa using hpost x hx
  unfold lastNicknameRow
  rw [hrows, List.filter_append, List.filter_cons]
  simp [hu, hg, hp]

/-- C5 (as stated, refuted): `nickname_listings` is empty, so the pair (7, 1) has no
prior row, and the new nickname "Al" is not empty; the read of the latest nickname
fails. `CheckNickname` returns the error and the table stays empty: no row is
appended. -/
theorem CheckNickname_failed_read_appends_nothing :
    (∀ l ∈ (⟨[], []⟩ : DB).nickname_listings, ¬ (l.UserID = 7 ∧ l.GuildID = 1)) ∧
    ("Al" : String) ≠ "" ∧
    CheckNickname ⟨fun n => n == 0, fun _ g => Except.ok ⟨g, true, true⟩⟩
        ⟨⟨[], []⟩, []⟩ 7 1 "Al" =
      (some Error.storage, ⟨⟨[], []⟩, [Op.nicknameQuery 7 1]⟩) ∧
    (CheckNickname ⟨fun n => n == 0, fun _ g => Except.ok ⟨g, true, true⟩⟩
        ⟨⟨[], []⟩, []⟩ 7 1 "Al").2.db.nickname_listings ≠ [⟨7, 1, "Al"⟩] := by
  decide

/-- C5 (amended): `CheckNickname`, when its read of the latest nickname succeeds. With no
row of the pair in the table and an empty new nickname it returns nil and leaves the
tables unchanged; with no row of the pair and a non-empty nickname it inserts one row;
when the last row of the pair in the table holds a nickname different from the new one
(the new one may be empty) it inserts one row; when the last row of the pair holds the
new nickname it returns nil and leaves the tables unchanged. Inserting one row means:
the row (user, guild, nickname) is appended at the end of the table and nil is
returned, unless the insert statement itself fails, in which case its error is returned
and nothing is written. -/
theorem CheckNickname_cases (env : Env) (tx : Tx) (userID guildID : Int) (nickname : String)
    (hread : env.fails tx.log.length = false) :
    ((∀ l ∈ tx.db.nickname_listings, ¬ (l.UserID = userID ∧ l.GuildID = guildID)) →
      nickname = "" →
      (CheckNickname env tx userID guildID nickname).1 = none ∧
      (CheckNickname env tx userID guildID nickname).2.db = tx.db) ∧
    ((∀ l ∈ tx.db.nickname_listings, ¬ (l.UserID = userID ∧ l.GuildID = guildID)) →
      nickname ≠ "" →
      (env.fails (tx.log.length + 1) = false →
        (CheckNickname env tx userID guildID nickname).1 = none ∧
        (CheckNickname env tx userID guildID nickname).2.db =
          { tx.db with nickname_listings := tx.db.nickname_listings ++
              [{ UserID := userID, GuildID := guildID, Nickname := nickname }] }) ∧
      (env.fails (tx.log.length + 1) = true →
        (CheckNickname env tx userID guildID nickname).1 = some Error.storage ∧
        (CheckNickname env tx userID guildID nickname).2.db = tx.db)) ∧
    (∀ (pre post : List NicknameListing) (l : NicknameListing),
      tx.db.nickname_listings = pre ++ l :: post →
      l.UserID = userID → l.GuildID = guildID →
      (∀ x ∈ post, ¬ (x.UserID = userID ∧ x.GuildID = guildID)) →
      l.Nickname ≠ nickname →
      (env.fails (tx.log.length + 1) = false →
        (CheckNickname env tx userID guildID nickname).1 = none ∧
        (CheckNickname env tx userID guildID nickname).2.db =
          { tx.db with nickname_listings := tx.db.nickname_listings ++
              [{ UserID := userID, GuildID := guildID, Nickname := nickname }] }) ∧
      (env.fails (tx.log.length + 1) = true →
        (CheckNickname env tx userID guildID nickname).1 = some Error.storage ∧
        (CheckNickname env tx userID guildID nickname).2.db = tx.db)) ∧
    (∀ (pre post : List NicknameListing) (l : NicknameListing),
      tx.db.nickname_listings = pre ++ l :: post →
      l.UserID = userID → l.GuildID = guildID →
      (∀ x ∈ post, ¬ (x.UserID = userID ∧ x.GuildID = guildID)) →
      l.Nickname = nickname →
      (CheckNickname env tx userID guildID nickname).1 = none ∧
      (CheckNickname env tx userID guildID nickname).2.db = tx.db) := by
  rw [CheckNickname_read_ok env tx userID guildID nickname hread]
  have hins : ¬ (lastNicknameRow tx.db userID guildID = some nickname ∨
      (lastNicknameRow tx.db userID guildID = none ∧ nickname = "")) →
      (env.fails (tx.log.length + 1) = false →
        (if lastNicknameRow tx.db userID guildID = some nickname ∨
            (lastNicknameRow tx.db userID guildID = none ∧ nickname = "") then
          (none, { tx with log := tx.log ++ [Op.nicknameQuery userID guildID] })
        else insertNicknameListing env
          { UserID := userID, GuildID := guildID, Nickname := nickname }
          { tx with log := tx.log ++ [Op.nicknameQuery userID guildID] }).1 = none ∧
        (if lastNicknameRow tx.db userID guildID = some nickname ∨
            (lastNicknameRow tx.db userID guildID = none ∧ nickname = "") then
          (none, { tx with log := tx.log ++ [Op.nicknameQuery userID guildID] })
        else insertNicknameListing env
          { UserID := userID, GuildID := guildID, Nickname := nickname }
          { tx with log := tx.log ++ [Op.nicknameQuery userID guildID] }).2.db =
          { tx.db with nickname_listings := tx.db.nickname_listings ++
              [{ UserID := userID, GuildID := guildID, Nickname := nickname }] }) ∧
      (env.fails (tx.log.length + 1) = true →
        (if lastNicknameRow tx.db userID guildID = some nickname ∨
            (lastNicknameRow tx.db userID guildID = none ∧ nickname = "") then
          (none, { tx with log := tx.log ++ [Op.nicknameQuery userID guildID] })
        else insertNicknameListing env
          { UserID := userID, GuildID := guildID, Nickname := nickname }
          { tx with log := tx.log ++ [Op.nicknameQuery userID guildID] }).1 =
            some Error.storage ∧
        (if lastNicknameRow tx.db userID guildID = some nickname ∨
            (lastNicknameRow tx.db userID guildID = none ∧ nickname = "") then
          (none, { tx with log := tx.log ++ [Op.nicknameQuery userID guildID] })
        else insertNicknameListing env
          { UserID := userID, GuildID := guildID, Nickname := nickname }
          { tx with log := tx.log ++ [Op.nicknameQuery userID guildID] }).2.db = tx.db) := by
    intro hne
    simp only [if_neg hne]
    constructor
    · intro hi
      simp [insertNicknameListing, hi]
    · intro hi
      simp [insertNicknameListing, hi]
  refine ⟨?_, ?_, ?_, ?_⟩
  · intro hno hn
    have h := (lastNicknameRow_eq_none_iff tx.db userID guildID).2 hno
    simp [h, hn]
  · intro hno hn
    have h := (lastNicknameRow_eq_none_iff tx.db userID guildID).2 hno
    apply hins
    simp [h, hn]
  · intro pre post l hrows hu hg hpost hne
    have h := lastNicknameRow_of_split tx.db userID guildID pre post l hrows hu hg hpost
    apply hins
    simp [h, hne]
  · intro pre post l hrows hu hg hpost heq
    have h := lastNicknameRow_of_split tx.db userID guildID pre post l hrows hu hg hpost
    simp [h, heq]

/-- A witness for `CheckNickname_cases`: the only row of user 7 in guild 1 holds "Bobby"
and the new nickname is empty, so a row with the empty nickname is added. -/
theorem CheckNickname_cases_witness :
    (CheckNickname ⟨fun _ => false, fun _ g => Except.ok ⟨g, true, true⟩⟩
        ⟨⟨[], [⟨7, 1, "Bobby"⟩]⟩, []⟩ 7 1 "").2.db = ⟨[], [⟨7, 1, "Bobby"⟩, ⟨7, 1, ""⟩]⟩ :=
  ((CheckNickname_cases ⟨fun _ => false, fun _ g => Except.ok ⟨g, true, true⟩⟩
      ⟨⟨[], [⟨7, 1, "Bobby"⟩]⟩, []⟩ 7 1 "" rfl).2.2.1
    [] [] ⟨7, 1, "Bobby"⟩ rfl rfl rfl (by simp) (by decide)).1 rfl |>.2

/-- C1 (the code at the failing input): guild 1 resolves to a config with username
logging off and nickname logging on. A batch with no presence pair and one member event
of guild 1, for user 7 named "Alice", makes `ProcessBatch` run `CheckUsername` for that
member and commit the row `(7, "Alice")` to `username_listings`. -/
theorem ProcessBatch_member_username_despite_flag :
    ProcessBatch
      { fails := fun _ => false,
        GetConfigCached := fun _ g => Except.ok
          { GuildID := g, UsernameLoggingEnabled := false, NicknameLoggingEnabled := true } }
      [] [{ GuildID := 1, User := { ID := 7, Username := "Alice" }, Nick := "" }]
      { username_listings := [], nickname_listings := [] } =
    { err := none,
      db := { username_listings := [{ UserID := 7, Username := "Alice" }],
              nickname_listings := [] },
      log := [Op.prepareNick, Op.prepareUsername, Op.getConfig 1, Op.usernameQuery 7,
              Op.usernameInsert { UserID := 7, Username := "Alice" },
              Op.nicknameQuery 7 1] } := by
  decide

/-- C2 (the code at the failing input): every guild has both flags on. The batch holds
the presence pairs of user 8 "Bob" and user 7 "Alice"; the row of user 8 is inserted, and
then the read of the latest username of user 7, the sixth storage operation of the
transaction, fails. `CheckUsername` returns nil for it, so `ProcessBatch` returns nil
and the batch is committed although a storage operation failed. -/
theorem ProcessBatch_commits_after_failed_username_read :
    ProcessBatch
      { fails := fun n => n == 5,
        GetConfigCached := fun _ g => Except.ok
          { GuildID := g, UsernameLoggingEnabled := true, NicknameLoggingEnabled := true } }
      [{ GuildID := 1, User := { ID := 8, Username := "Bob" } },
       { GuildID := 1, User := { ID := 7, Username := "Alice" } }] []
      { username_listings := [], nickname_listings := [] } =
    { err := none,
      db := { username_listings := [{ UserID := 8, Username := "Bob" }],
              nickname_listings := [] },
      log := [Op.prepareNick, Op.prepareUsername, Op.getConfig 1, Op.usernameQuery 8,
              Op.usernameInsert { UserID := 8, Username := "Bob" },
              Op.usernameQuery 7] } := by
  decide

/-- C6 (the code at the failing input): guild 1 resolves to a config with username
logging on and nickname logging off. A batch with one member event of guild 1, for user
7 with nickname "Al", makes `ProcessBatch` run `CheckNickname` for that member and commit
the row `(7, 1, "Al")` to `nickname_listings`. -/
theorem ProcessBatch_member_nickname_despite_flag :
    ProcessBatch
      { fails := fun _ => false,
        GetConfigCached := fun _ g => Except.ok
          { GuildID := g, UsernameLoggingEnabled := true, NicknameLoggingEnabled := false } }
      [] [{ GuildID := 1, User := { ID := 7, Username := "Alice" }, Nick := "Al" }]
      { username_listings := [], nickname_listings := [] } =
    { err := none,
      db := { username_listings := [{ UserID := 7, Username := "Alice" }],
              nickname_listings := [{ UserID := 7, GuildID := 1, Nickname := "Al" }] },
      log := [Op.prepareNick, Op.prepareUsername, Op.getConfig 1, Op.usernameQuery 7,
              Op.usernameInsert { UserID := 7, Username := "Alice" },
              Op.nicknameQuery 7 1,
              Op.nicknameInsert { UserID := 7, GuildID := 1, Nickname := "Al" }] } := by
  decide


theorem queueEvt_ne (evt : Evt) (ch : Chan) : queueEvt evt ch ≠ ch := by
  unfold queueEvt
  intro h
  split at h
  · have := congrArg (fun c => c.buf.length) h
    simp at this
  · have := congrArg (fun c => c.senders.length) h
    simp at this

/-- C8 (as stated, refuted): guild 1 holds a complete snapshot of member 7 with username
"Alice" and nickname "Al"; a presence update for that member with an empty username and
the nickname "Al" is dropped, although its username differs from the snapshot's. -/
theorem HandlePresenceUpdate_drops_empty_username :
    snapshot ⟨fun _ => some ⟨fun _ => some ⟨true, true, "Alice", "Al"⟩⟩⟩ ⟨1, ⟨7, ""⟩, "Al"⟩
        = some ⟨true, true, "Alice", "Al"⟩ ∧
      (⟨1, ⟨7, ""⟩, "Al"⟩ : PresenceUpdate).User.Username ≠
        (⟨true, true, "Alice", "Al"⟩ : MemberState).Username ∧
      HandlePresenceUpdate ⟨fun _ => some ⟨fun _ => some ⟨true, true, "Alice", "Al"⟩⟩⟩
        ⟨1, ⟨7, ""⟩, "Al"⟩ ⟨[], []⟩ = ⟨[], []⟩ ∧
      HandlePresenceUpdate ⟨fun _ => some ⟨fun _ => some ⟨true, true, "Alice", "Al"⟩⟩⟩
        ⟨1, ⟨7, ""⟩, "Al"⟩ ⟨[], []⟩ ≠
        queueEvt (Evt.PresenceUpdate ⟨1, ⟨7, ""⟩, "Al"⟩) ⟨[], []⟩ := by
  decide

/-- C8 (amended): `HandlePresenceUpdate` drops the event exactly when a live snapshot of
the member is available, the event's nickname equals the snapshot's, and the event's
username is empty or equals the snapshot's; in every other case it hands the event to
`queueEvt`, which always changes the channel state. -/
theorem HandlePresenceUpdate_filter (state : BotState) (pu : PresenceUpdate) (ch : Chan) :
    HandlePresenceUpdate state pu ch =
      (match snapshot state pu with
        | some ms =>
          if (pu.User.Username = "" ∨ pu.User.Username = ms.Username) ∧ pu.Nick = ms.Nick
          then ch else queueEvt (Evt.PresenceUpdate pu) ch
        | none => queueEvt (Evt.PresenceUpdate pu) ch) ∧
    queueEvt (Evt.PresenceUpdate pu) ch ≠ ch := by
  refine ⟨?_, queueEvt_ne _ _⟩
  cases hg : state.Guild pu.GuildID with
  | none => simp [HandlePresenceUpdate, snapshot, hg]
  | some gs =>
    cases hm : gs.Member pu.User.ID with
    | none => simp [HandlePresenceUpdate, snapshot, hg, hm]
    | some ms =>
      cases hp : ms.PresenceSet <;> cases hs : ms.MemberSet <;>
        simp [HandlePresenceUpdate, snapshot, hg, hm, hp, hs]
      by_cases hu : pu.User.Username = ""
      · simp [hu]
      · by_cases hu2 : pu.User.Username = ms.Username
        · simp [hu2]
        · simp [hu, hu2]

/-- C10: a timer tick of `EvtProcesser` calls `ProcessBatch` exactly once, with the
current contents of both buffers; the tables afterwards are the ones that call leaves;
if the call returns nil both buffers are empty afterwards, and if it returns an error
both buffers are exactly as they were before the tick. -/
theorem EvtProcesser_tick_buffers (env : Env) (s : Processer) :
    (EvtProcesser_tick env s).batches = s.batches ++ [(s.queuedUsers, s.queuedMembers)] ∧
    (EvtProcesser_tick env s).db =
      (ProcessBatch env s.queuedUsers s.queuedMembers s.db).db ∧
    ((ProcessBatch env s.queuedUsers s.queuedMembers s.db).err = none →
      (EvtProcesser_tick env s).queuedUsers = [] ∧
      (EvtProcesser_tick env s).queuedMembers = []) ∧
    ((ProcessBatch env s.queuedUsers s.queuedMembers s.db).err ≠ none →
      (EvtProcesser_tick env s).queuedUsers = s.queuedUsers ∧
      (EvtProcesser_tick env s).queuedMembers = s.queuedMembers) := by
  unfold EvtProcesser_tick
  by_cases h : (ProcessBatch env s.queuedUsers s.queuedMembers s.db).err = none
  · simp [h]
  · simp [h]

/-! ## Nickname invariant -/

/-- The effect of `CheckNickname` on the tables: nothing, or one appended row, which is
non-empty when the pair had no row. -/
theorem CheckNickname_db (env : Env) (tx : Tx) (u g : Int) (n : String) :
    (CheckNickname env tx u g n).2.db = tx.db ∨
    ((CheckNickname env tx u g n).2.db =
        { tx.db with nickname_listings := tx.db.nickname_listings ++ [⟨u, g, n⟩] } ∧
      (lastNicknameRow tx.db u g = none → n ≠ "")) := by
  cases hf : env.fails tx.log.length with
  | true =>
    left
    simp [CheckNickname, nicknameQueryRowScan, hf]
  | false =>
    rw [CheckNickname_read_ok env tx u g n hf]
    split
    · left; rfl
    · rename_i hne
      unfold insertNicknameListing
      split
      · left; rfl
      · right
        refine ⟨rfl, ?_⟩
        intro hnone hn
        exact hne (Or.inr ⟨hnone, hn⟩)

theorem FirstNicknameNonEmpty_append (rows : List NicknameListing) (u g : Int) (n : String)
    (hinv : FirstNicknameNonEmpty rows)
    (hn : (∀ l ∈ rows, ¬ (l.UserID = u ∧ l.GuildID = g)) → n ≠ "") :
    FirstNicknameNonEmpty (rows ++ [⟨u, g, n⟩]) := by
  intro u' g'
  rw [List.find?_append]
  cases hfind : rows.find? (fun l => l.UserID = u' ∧ l.GuildID = g') with
  | some l =>
    have := hinv u' g'
    rw [hfind] at this
    simpa using this
  | none =>
    rw [List.find?_eq_none] at hfind
    by_cases hp : u = u' ∧ g = g'
    · obtain ⟨rfl, rfl⟩ := hp
      have hn' := hn (fun l hl => by simpa using hfind l hl)
      simp [List.find?, hn']
    · have : decide ((⟨u, g, n⟩ : NicknameListing).UserID = u' ∧
          (⟨u, g, n⟩ : NicknameListing).GuildID = g') = false := by
        simpa using hp
      simp [List.find?, this]

theorem CheckNickname_inv (env : Env) (tx : Tx) (u g : Int) (n : String)
    (hinv : FirstNicknameNonEmpty tx.db.nickname_listings) :
    FirstNicknameNonEmpty (CheckNickname env tx u g n).2.db.nickname_listings := by
  rcases CheckNickname_db env tx u g n with h | ⟨h, hn⟩
  · rw [h]; exact hinv
  · rw [h]
    exact FirstNicknameNonEmpty_append _ u g n hinv
      (fun hno => hn ((lastNicknameRow_eq_none_iff tx.db u g).2 hno))

theorem runNicknameCalls_inv (calls : List NicknameCall) (db : DB)
    (hinv : FirstNicknameNonEmpty db.nickname_listings) :
    FirstNicknameNonEmpty (runNicknameCalls calls db).nickname_listings := by
  induction calls generalizing db with
  | nil => exact hinv
  | cons c cs ih =>
    simp only [runNicknameCalls, List.foldl_cons]
    exact ih _ (CheckNickname_inv c.env ⟨db, c.log⟩ c.userID c.guildID c.nickname hinv)

/-- A row with an empty nickname is preceded by a row of the same pair. -/
theorem FirstNicknameNonEmpty_preceded (rows : List NicknameListing)
    (hinv : FirstNicknameNonEmpty rows) (pre post : List NicknameListing)
    (l : NicknameListing) (hrows : rows = pre ++ l :: post) (hl : l.Nickname = "") :
    ∃ l' ∈ pre, l'.UserID = l.UserID ∧ l'.GuildID = l.GuildID := by
  by_contra hcon
  push_neg at hcon
  have h := hinv l.UserID l.GuildID
  rw [hrows, List.find?_append] at h
  have hpre : pre.find? (fun x => x.UserID = l.UserID ∧ x.GuildID = l.GuildID) = none := by
    rw [List.find?_eq_none]
    intro x hx
    have := hcon x hx
    simpa using this
  rw [hpre] at h
  simp [List.find?, hl] at h

/-! ## Properties of the tables that every step of a batch preserves -/

/-- The effect of `CheckUsername` on the tables: nothing, or one appended row that
differs from the latest row of the user. -/
theorem CheckUsername_db (env : Env) (tx : Tx) (user : User) :
    (CheckUsername env tx user).2.db = tx.db ∨
    ((CheckUsername env tx user).2.db =
        { tx.db with username_listings :=
            tx.db.username_listings ++ [⟨user.ID, user.Username⟩] } ∧
      lastUsernameRow tx.db user.ID ≠ some user.Username) := by
  cases hf : env.fails tx.log.length with
  | true =>
    left
    simp [CheckUsername, usernameQueryRowScan, hf]
  | false =>
    rw [CheckUsername_read_ok env tx user hf]
    split
    · left; rfl
    · rename_i hne
      unfold insertUsernameListing
      split
      · left; rfl
      · right
        exact ⟨rfl, hne⟩

theorem CheckUsername_nickname_listings (env : Env) (tx : Tx) (user : User) :
    (CheckUsername env tx user).2.db.nickname_listings = tx.db.nickname_listings := by
  rcases CheckUsername_db env tx user with h | ⟨h, _⟩ <;> rw [h]

theorem Prepare_db (env : Env) (stmt : Op) (tx : Tx) : (Prepare env stmt tx).2.db = tx.db :=
  rfl

theorem findConfigs_db (env : Env) (msg : String) (gIDs : List Int)
    (configs : List GuildLoggingConfig) (tx : Tx) :
    (findConfigs env msg gIDs configs tx).2.2.db = tx.db := by
  induction gIDs generalizing configs tx with
  | nil => rfl
  | cons g rest ih =>
    unfold findConfigs
    split
    · exact ih configs tx
    · unfold GetConfigCached
      cases env.GetConfigCached tx.log.length g with
      | error e => rfl
      | ok c => simp only []; rw [ih]

theorem updateUsers_preserves (P : DB → Prop)
    (hU : ∀ (env : Env) (tx : Tx) (user : User), P tx.db → P (CheckUsername env tx user).2.db)
    (env : Env) (configs : List GuildLoggingConfig) (users : List UserGuildPair) (tx : Tx)
    (h : P tx.db) : P (updateUsers env configs users tx).2.db := by
  induction users generalizing tx with
  | nil => exact h
  | cons v rest ih =>
    unfold updateUsers
    split
    · exact ih tx h
    · have h1 := hU env tx v.User h
      split
      · rename_i err tx1 heq
        rw [heq] at h1; exact h1
      · rename_i tx1 heq
        rw [heq] at h1; exact ih tx1 h1

theorem updateMembers_preserves (P : DB → Prop)
    (hU : ∀ (env : Env) (tx : Tx) (user : User), P tx.db → P (CheckUsername env tx user).2.db)
    (hN : ∀ (env : Env) (tx : Tx) (u g : Int) (n : String),
      P tx.db → P (CheckNickname env tx u g n).2.db)
    (env : Env) (configs : List GuildLoggingConfig) (members : List Member) (tx : Tx)
    (h : P tx.db) : P (updateMembers env configs members tx).2.db := by
  induction members generalizing tx with
  | nil => exact h
  | cons v rest ih =>
    unfold updateMembers
    split
    rename_i checkNick checkUser _
    split
    · exact ih tx h
    · have h1 := hU env tx v.User h
      split
      · rename_i err tx1 heq
        rw [heq] at h1; exact h1
      · rename_i tx1 heq
        rw [heq] at h1
        have h2 := hN env tx1 v.User.ID v.GuildID v.Nick h1
        split
        · rename_i err tx2 heq2
          rw [heq2] at h2; exact h2
        · rename_i tx2 heq2
          rw [heq2] at h2; exact ih tx2 h2

theorem ProcessBatchTx_preserves (P : DB → Prop)
    (hU : ∀ (env : Env) (tx : Tx) (user : User), P tx.db → P (CheckUsername env tx user).2.db)
    (hN : ∀ (env : Env) (tx : Tx) (u g : Int) (n : String),
      P tx.db → P (CheckNickname env tx u g n).2.db)
    (env : Env) (users : List UserGuildPair) (members : List Member) (tx : Tx)
    (h : P tx.db) : P (ProcessBatchTx env users members tx).2.db := by
  unfold ProcessBatchTx
  split
  · rename_i err tx1 heq
    have := Prepare_db env Op.prepareNick tx
    rw [heq] at this; simp only at this; rw [this]; exact h
  · rename_i tx1 heq
    have h1 : P tx1.db := by
      have := Prepare_db env Op.prepareNick tx
      rw [heq] at this; simp only at this; rw [this]; exact h
    split
    · rename_i err tx2 heq2
      have := Prepare_db env Op.prepareUsername tx1
      rw [heq2] at this; simp only at this; rw [this]; exact h1
    · rename_i tx2 heq2
      have h2 : P tx2.db := by
        have := Prepare_db env Op.prepareUsername tx1
        rw [heq2] at this; simp only at this; rw [this]; exact h1
      split
      · rename_i err cs tx3 heq3
        have := findConfigs_db env "users_configs" (users.map (fun v => v.GuildID)) [] tx2
        rw [heq3] at this; simp only at this; rw [this]; exact h2
      · rename_i configs tx3 heq3
        have h3 : P tx3.db := by
          have := findConfigs_db env "users_configs" (users.map (fun v => v.GuildID)) [] tx2
          rw [heq3] at this; simp only at this; rw [this]; exact h2
        split
        · rename_i err cs tx4 heq4
          have := findConfigs_db env "members_configs" (members.map (fun v => v.GuildID))
            configs tx3
          rw [heq4] at this; simp only at this; rw [this]; exact h3
        · rename_i configs2 tx4 heq4
          have h4 : P tx4.db := by
            have := findConfigs_db env "members_configs" (members.map (fun v => v.GuildID))
              configs tx3
            rw [heq4] at this; simp only at this; rw [this]; exact h3
          have h5 := updateUsers_preserves P hU env configs2 users tx4 h4
          split
          · rename_i err tx5 heq5
            rw [heq5] at h5; exact h5
          · rename_i tx5 heq5
            rw [heq5] at h5
            exact updateMembers_preserves P hU hN env configs2 members tx5 h5

theorem ProcessBatch_preserves (P : DB → Prop)
    (hU : ∀ (env : Env) (tx : Tx) (user : User), P tx.db → P (CheckUsername env tx user).2.db)
    (hN : ∀ (env : Env) (tx : Tx) (u g : Int) (n : String),
      P tx.db → P (CheckNickname env tx u g n).2.db)
    (env : Env) (users : List UserGuildPair) (members : List Member) (db : DB)
    (h : P db) : P (ProcessBatch env users members db).db := by
  unfold ProcessBatch SqlTX
  have h1 := ProcessBatchTx_preserves P hU hN env users members ⟨db, []⟩ h
  split
  · exact h
  · rename_i tx heq
    rw [heq] at h1; exact h1

theorem EvtProcesser_preserves (P : DB → Prop)
    (hU : ∀ (env : Env) (tx : Tx) (user : User), P tx.db → P (CheckUsername env tx user).2.db)
    (hN : ∀ (env : Env) (tx : Tx) (u g : Int) (n : String),
      P tx.db → P (CheckNickname env tx u g n).2.db)
    (schedule : List Select) (s : Processer) (h : P s.db) :
    P (EvtProcesser schedule s).db := by
  induction schedule generalizing s with
  | nil => exact h
  | cons x rest ih =>
    simp only [EvtProcesser, List.foldl_cons]
    apply ih
    cases x with
    | recv e =>
      simp only [EvtProcesser_step, EvtProcesser_recv]
      cases e <;> simp only [] <;> (try split) <;> exact h
    | tick env =>
      simp only [EvtProcesser_step, EvtProcesser_tick]
      have := ProcessBatch_preserves P hU hN env s.queuedUsers s.queuedMembers s.db h
      split <;> exact this

/-- C7: in the tables reached from tables without nickname rows by any sequence of
`CheckNickname` calls (in any environment), and likewise by any run of `EvtProcesser`,
hence by any sequence of `ProcessBatch` runs, the earliest row of every (user, guild)
pair holds a non-empty nickname; put differently, every row with an empty nickname comes
after an earlier row of the same pair. -/
theorem nickname_first_row_non_empty (usernames : List UsernameListing) :
    (∀ (calls : List NicknameCall) (u g : Int),
      firstNicknameRow (runNicknameCalls calls ⟨usernames, []⟩) u g ≠ some "") ∧
    (∀ (calls : List NicknameCall) (pre post : List NicknameListing) (l : NicknameListing),
      (runNicknameCalls calls ⟨usernames, []⟩).nickname_listings = pre ++ l :: post →
      l.Nickname = "" → ∃ l' ∈ pre, l'.UserID = l.UserID ∧ l'.GuildID = l.GuildID) ∧
    (∀ (schedule : List Select) (u g : Int),
      firstNicknameRow (EvtProcesser schedule (Processer.start ⟨usernames, []⟩)).db u g
        ≠ some "") ∧
    (∀ (schedule : List Select) (pre post : List NicknameListing) (l : NicknameListing),
      (EvtProcesser schedule (Processer.start ⟨usernames, []⟩)).db.nickname_listings
        = pre ++ l :: post →
      l.Nickname = "" → ∃ l' ∈ pre, l'.UserID = l.UserID ∧ l'.GuildID = l.GuildID) := by
  have h0 : FirstNicknameNonEmpty (⟨usernames, []⟩ : DB).nickname_listings := by
    intro u g; simp
  have hcalls := fun calls => runNicknameCalls_inv calls ⟨usernames, []⟩ h0
  have hsched := fun schedule =>
    EvtProcesser_preserves (fun d => FirstNicknameNonEmpty d.nickname_listings)
      (fun env tx user h => by
        show FirstNicknameNonEmpty (CheckUsername env tx user).2.db.nickname_listings
        rw [CheckUsername_nickname_listings]; exact h)
      (fun env tx u g n h => CheckNickname_inv env tx u g n h)
      schedule (Processer.start ⟨usernames, []⟩) h0
  refine ⟨fun calls u g => hcalls calls u g, ?_, fun schedule u g => hsched schedule u g, ?_⟩
  · intro calls pre post l hrows hl
    exact FirstNicknameNonEmpty_preceded _ (hcalls calls) pre post l hrows hl
  · intro schedule pre post l hrows hl
    exact FirstNicknameNonEmpty_preceded _ (hsched schedule) pre post l hrows hl

/-! ## Config resolution -/

theorem configKnown_iff (configs : List GuildLoggingConfig) (g : Int) :
    configKnown configs g = true ↔ g ∈ configs.map (fun c => c.GuildID) := by
  induction configs with
  | nil => simp [configKnown]
  | cons c cs ih =>
    unfold configKnown
    by_cases h : c.GuildID = g
    · simp [h]
    · simp only [if_neg h, ih, List.map_cons, List.mem_cons]
      constructor
      · intro h'; exact Or.inr h'
      · rintro (h' | h')
        · exact absurd h'.symm h
        · exact h'

/-- The config-finding loop, when the resolver always answers with the config of the
guild it was asked for (and every answer satisfies `Q`): it returns nil, asks once for
each guild id of the list that is not yet known, in order of first appearance, and
leaves the tables alone. -/
theorem findConfigs_ok (env : Env) (Q : GuildLoggingConfig → Prop)
    (hres : ∀ n g, ∃ c, env.GetConfigCached n g = Except.ok c ∧ c.GuildID = g ∧ Q c)
    (msg : String) (gIDs : List Int) (configs : List GuildLoggingConfig) (tx : Tx) :
    ∃ (L : List Int) (added : List GuildLoggingConfig),
      findConfigs env msg gIDs configs tx =
        (none, configs ++ added, { tx with log := tx.log ++ L.map Op.getConfig }) ∧
      added.map (fun c => c.GuildID) = L ∧ (∀ c ∈ added, Q c) ∧ L.Nodup ∧
      (∀ g, g ∈ L ↔ g ∈ gIDs ∧ g ∉ configs.map (fun c => c.GuildID)) := by
  induction gIDs generalizing configs tx with
  | nil =>
    refine ⟨[], [], ?_, rfl, by simp, List.nodup_nil, by simp⟩
    simp [findConfigs]
  | cons g rest ih =>
    unfold findConfigs
    by_cases hk : configKnown configs g = true
    · simp only [hk, if_true]
      obtain ⟨L, added, h1, h2, h3, h4, h5⟩ := ih configs tx
      refine ⟨L, added, h1, h2, h3, h4, ?_⟩
      intro g'
      rw [h5 g']
      have hk' := (configKnown_iff configs g).1 hk
      constructor
      · rintro ⟨a, b⟩; exact ⟨List.mem_cons_of_mem _ a, b⟩
      · rintro ⟨a, b⟩
        rcases List.mem_cons.1 a with rfl | a
        · exact absurd hk' b
        · exact ⟨a, b⟩
    · simp only [hk, Bool.false_eq_true, if_false]
      obtain ⟨c, hc, hcg, hcq⟩ := hres tx.log.length g
      simp only [GetConfigCached, hc]
      obtain ⟨L, added, h1, h2, h3, h4, h5⟩ :=
        ih (configs ++ [c]) { tx with log := tx.log ++ [Op.getConfig g] }
      have hk' : g ∉ configs.map (fun c => c.GuildID) := fun h =>
        hk ((configKnown_iff configs g).2 h)
      refine ⟨g :: L, c :: added, ?_, ?_, ?_, ?_, ?_⟩
      · rw [h1]; simp
      · simp [h2, hcg]
      · intro c' hc'
        rcases List.mem_cons.1 hc' with rfl | hc'
        · exact hcq
        · exact h3 c' hc'
      · refine List.nodup_cons.2 ⟨?_, h4⟩
        intro hg
        have := ((h5 g).1 hg).2
        simp [hcg] at this
      · intro g'
        simp only [List.mem_cons, h5 g', List.map_append, List.map_cons, List.map_nil,
          List.mem_append, List.mem_singleton, hcg]
        constructor
        · rintro (rfl | ⟨a, b⟩)
          · exact ⟨Or.inl rfl, hk'⟩
          · exact ⟨Or.inr a, fun h => b (Or.inl h)⟩
        · rintro ⟨a | a, b⟩
          · exact Or.inl a
          · by_cases hgg : g' = g
            · exact Or.inl hgg
            · refine Or.inr ⟨a, ?_⟩
              rintro (h | h)
              · exact b h
              · rcases h with h | h
                · exact hgg h
                · simp at h

/-! ## The operation log of a batch -/

theorem CheckUsername_log (env : Env) (tx : Tx) (user : User) :
    ∃ ops, (CheckUsername env tx user).2.log = tx.log ++ ops ∧
      ∀ o ∈ ops, isDetectorOp o = true := by
  cases hf : env.fails tx.log.length with
  | true =>
    exact ⟨[Op.usernameQuery user.ID],
      by simp [CheckUsername, usernameQueryRowScan, hf], by simp [isDetectorOp]⟩
  | false =>
    rw [CheckUsername_read_ok env tx user hf]
    split
    · exact ⟨[Op.usernameQuery user.ID], rfl, by simp [isDetectorOp]⟩
    · unfold insertUsernameListing
      split
      · exact ⟨[Op.usernameQuery user.ID, Op.usernameInsert ⟨user.ID, user.Username⟩],
          by simp, by simp [isDetectorOp]⟩
      · exact ⟨[Op.usernameQuery user.ID, Op.usernameInsert ⟨user.ID, user.Username⟩],
          by simp, by simp [isDetectorOp]⟩

theorem CheckNickname_log (env : Env) (tx : Tx) (u g : Int) (n : String) :
    ∃ ops, (CheckNickname env tx u g n).2.log = tx.log ++ ops ∧
      ∀ o ∈ ops, isDetectorOp o = true := by
  cases hf : env.fails tx.log.length with
  | true =>
    exact ⟨[Op.nicknameQuery u g],
      by simp [CheckNickname, nicknameQueryRowScan, hf], by simp [isDetectorOp]⟩
  | false =>
    rw [CheckNickname_read_ok env tx u g n hf]
    split
    · exact ⟨[Op.nicknameQuery u g], rfl, by simp [isDetectorOp]⟩
    · unfold insertNicknameListing
      split
      · exact ⟨[Op.nicknameQuery u g, Op.nicknameInsert ⟨u, g, n⟩],
          by simp, by simp [isDetectorOp]⟩
      · exact ⟨[Op.nicknameQuery u g, Op.nicknameInsert ⟨u, g, n⟩],
          by simp, by simp [isDetectorOp]⟩

theorem updateUsers_log (env : Env) (configs : List GuildLoggingConfig)
    (users : List UserGuildPair) (tx : Tx) :
    ∃ ops, (updateUsers env configs users tx).2.log = tx.log ++ ops ∧
      ∀ o ∈ ops, isDetectorOp o = true := by
  induction users generalizing tx with
  | nil => exact ⟨[], by simp [updateUsers], by simp⟩
  | cons v rest ih =>
    unfold updateUsers
    split
    · exact ih tx
    · obtain ⟨ops1, h1, d1⟩ := CheckUsername_log env tx v.User
      split
      · rename_i err tx1 heq
        rw [heq] at h1
        exact ⟨ops1, h1, d1⟩
      · rename_i tx1 heq
        rw [heq] at h1
        obtain ⟨ops2, h2, d2⟩ := ih tx1
        refine ⟨ops1 ++ ops2, ?_, ?_⟩
        · rw [h2]; simp only at h1; rw [h1, List.append_assoc]
        · intro o ho
          rcases List.mem_append.1 ho with ho | ho
          · exact d1 o ho
          · exact d2 o ho

theorem updateMembers_log (env : Env) (configs : List GuildLoggingConfig)
    (members : List Member) (tx : Tx) :
    ∃ ops, (updateMembers env configs members tx).2.log = tx.log ++ ops ∧
      ∀ o ∈ ops, isDetectorOp o = true := by
  induction members generalizing tx with
  | nil => exact ⟨[], by simp [updateMembers], by simp⟩
  | cons v rest ih =>
    unfold updateMembers
    split
    rename_i checkNick checkUser _
    split
    · exact ih tx
    · obtain ⟨ops1, h1, d1⟩ := CheckUsername_log env tx v.User
      split
      · rename_i err tx1 heq
        rw [heq] at h1
        exact ⟨ops1, h1, d1⟩
      · rename_i tx1 heq
        rw [heq] at h1
        simp only at h1
        obtain ⟨ops2, h2, d2⟩ := CheckNickname_log env tx1 v.User.ID v.GuildID v.Nick
        split
        · rename_i err tx2 heq2
          rw [heq2] at h2
          simp only at h2
          refine ⟨ops1 ++ ops2, ?_, ?_⟩
          · rw [h2, h1, List.append_assoc]
          · intro o ho
            rcases List.mem_append.1 ho with ho | ho
            · exact d1 o ho
            · exact d2 o ho
        · rename_i tx2 heq2
          rw [heq2] at h2
          simp only at h2
          obtain ⟨ops3, h3, d3⟩ := ih tx2
          refine ⟨ops1 ++ ops2 ++ ops3, ?_, ?_⟩
          · rw [h3, h2, h1]; simp only [List.append_assoc]
          · intro o ho
            rcases List.mem_append.1 ho with ho | ho
            · rcases List.mem_append.1 ho with ho | ho
              · exact d1 o ho
              · exact d2 o ho
            · exact d3 o ho

theorem resolutions_append (a b : List Op) :
    resolutions (a ++ b) = resolutions a ++ resolutions b := by
  induction a with
  | nil => rfl
  | cons o rest ih => cases o <;> simp [resolutions, ih]

theorem resolutions_getConfig (L : List Int) : resolutions (L.map Op.getConfig) = L := by
  induction L with
  | nil => rfl
  | cons g rest ih => simp [resolutions, ih]

theorem resolutions_detector (ops : List Op) (h : ∀ o ∈ ops, isDetectorOp o = true) :
    resolutions ops = [] := by
  induction ops with
  | nil => rfl
  | cons o rest ih =>
    have ho := h o (List.mem_cons_self _ _)
    have hr := ih (fun o' ho' => h o' (List.mem_cons_of_mem _ ho'))
    cases o <;> simp_all [resolutions, isDetectorOp]

/-- The shape of the log of a batch whose statements are prepared and whose resolver
always answers with the config of the guild it was asked for. -/
theorem ProcessBatch_log (env : Env) (users : List UserGuildPair) (members : List Member)
    (db : DB) (hprep : env.fails 0 = false ∧ env.fails 1 = false)
    (hres : ∀ n g, ∃ c, env.GetConfigCached n g = Except.ok c ∧ c.GuildID = g) :
    ∃ (L : List Int) (ops : List Op),
      (ProcessBatch env users members db).log =
        [Op.prepareNick, Op.prepareUsername] ++ L.map Op.getConfig ++ ops ∧
      (∀ o ∈ ops, isDetectorOp o = true) ∧ L.Nodup ∧
      (∀ g, g ∈ L ↔ (∃ v ∈ users, v.GuildID = g) ∨ (∃ v ∈ members, v.GuildID = g)) := by
  have hres' : ∀ n g, ∃ c, env.GetConfigCached n g = Except.ok c ∧ c.GuildID = g ∧ True :=
    fun n g => by
      obtain ⟨c, h1, h2⟩ := hres n g
      exact ⟨c, h1, h2, trivial⟩
  obtain ⟨L1, added1, e1, m1, -, n1, i1⟩ :=
    findConfigs_ok env (fun _ => True) hres' "users_configs"
      (users.map (fun v => v.GuildID)) []
      { db := db, log := [Op.prepareNick, Op.prepareUsername] }
  obtain ⟨L2, added2, e2, m2, -, n2, i2⟩ :=
    findConfigs_ok env (fun _ => True) hres' "members_configs"
      (members.map (fun v => v.GuildID)) ([] ++ added1)
      { db := db, log := [Op.prepareNick, Op.prepareUsername] ++ L1.map Op.getConfig }
  have hlog : ∃ ops, (ProcessBatch env users members db).log =
      [Op.prepareNick, Op.prepareUsername] ++ L1.map Op.getConfig ++ L2.map Op.getConfig ++ ops
      ∧ ∀ o ∈ ops, isDetectorOp o = true := by
    simp only [ProcessBatch, SqlTX, ProcessBatchTx, Prepare, List.length_nil, hprep.1,
      List.nil_append, List.length_singleton, hprep.2, Bool.false_eq_true, if_false]
    simp only [List.singleton_append] at e1 e2 ⊢
    rw [e1]
    simp only []
    rw [e2]
    simp only []
    generalize ([] ++ added1 ++ added2) = configs
    generalize hlog4 :
      [Op.prepareNick, Op.prepareUsername] ++ L1.map Op.getConfig ++ L2.map Op.getConfig = log4
    obtain ⟨ops1, l1, d1⟩ := updateUsers_log env configs users { db := db, log := log4 }
    cases hu : updateUsers env configs users { db := db, log := log4 } with
    | mk err5 tx5 =>
      rw [hu] at l1
      simp only at l1
      cases err5 with
      | some err => exact ⟨ops1, l1, d1⟩
      | none =>
        obtain ⟨ops2, l2, d2⟩ := updateMembers_log env configs members tx5
        refine ⟨ops1 ++ ops2, ?_, ?_⟩
        · simp only []
          cases hm : updateMembers env configs members tx5 with
          | mk err6 tx6 =>
            rw [hm] at l2
            simp only at l2
            cases err6 <;> simp only [l2, l1, List.append_assoc]
        · intro o ho
          rcases List.mem_append.1 ho with ho | ho
          · exact d1 o ho
          · exact d2 o ho
  obtain ⟨ops, hl, hd⟩ := hlog
  refine ⟨L1 ++ L2, ops, ?_, hd, ?_, ?_⟩
  · rw [hl]; simp
  · refine List.Nodup.append n1 n2 ?_
    intro g h1 h2
    have := ((i2 g).1 h2).2
    simp [m1] at this
    exact this h1
  · intro g
    simp only [List.mem_append, i1 g, i2 g, List.mem_map, List.map_nil, List.not_mem_nil,
      not_false_eq_true, and_true, List.nil_append, m1]
    constructor
    · rintro (⟨v, hv, rfl⟩ | ⟨⟨v, hv, rfl⟩, _⟩)
      · exact Or.inl ⟨v, hv, rfl⟩
      · exact Or.inr ⟨v, hv, rfl⟩
    · rintro (⟨v, hv, rfl⟩ | ⟨v, hv, rfl⟩)
      · exact Or.inl ⟨v, hv, rfl⟩
      · by_cases h : ∃ a ∈ users, a.GuildID = v.GuildID
        · exact Or.inl h
        · exact Or.inr ⟨⟨v, hv, rfl⟩, h⟩

/-- C9 (as stated, refuted): the resolver answers every request with a config carrying
the requested guild id and never fails, and the user list holds a pair of guild 1, but
the first `tx.Prepare` fails. `ProcessBatch` returns the wrapped error before the
config-finding loops, so `GetConfigCached` is called zero times for guild 1. -/
theorem ProcessBatch_failed_prepare_resolves_nothing :
    (∀ (n : Nat) (g : Int), ∃ c,
      (⟨fun k => k == 0, fun _ g => Except.ok ⟨g, true, true⟩⟩ : Env).GetConfigCached n g
        = Except.ok c ∧ c.GuildID = g) ∧
    (∃ v ∈ [(⟨1, ⟨7, "Alice"⟩⟩ : UserGuildPair)], v.GuildID = 1) ∧
    ProcessBatch ⟨fun k => k == 0, fun _ g => Except.ok ⟨g, true, true⟩⟩
        [⟨1, ⟨7, "Alice"⟩⟩] [] ⟨[], []⟩ =
      { err := some (Error.wrap Error.storage "nick stmnt prepare"),
        db := ⟨[], []⟩, log := [Op.prepareNick] } ∧
    (resolutions (ProcessBatch ⟨fun k => k == 0, fun _ g => Except.ok ⟨g, true, true⟩⟩
        [⟨1, ⟨7, "Alice"⟩⟩] [] ⟨[], []⟩).log).count 1 = 0 := by
  refine ⟨fun _ g => ⟨⟨g, true, true⟩, rfl, rfl⟩, ⟨⟨1, ⟨7, "Alice"⟩⟩, by simp, rfl⟩, ?_, ?_⟩
  · decide
  · decide

/-- C9 (amended): in a run of `ProcessBatch` whose two statements are prepared, in which no
resolution fails and the resolver answers every request with a config carrying the
requested guild id, `GetConfigCached` is called exactly once for each guild id that
occurs in the user list or the member list and for no other id, and all these calls
come before any change-detector operation: the log is the two prepares, then the
resolutions, then detector operations only. -/
theorem ProcessBatch_resolves_each_guild_once (env : Env) (users : List UserGuildPair)
    (members : List Member) (db : DB)
    (hprep : env.fails 0 = false ∧ env.fails 1 = false)
    (hres : ∀ n g, ∃ c, env.GetConfigCached n g = Except.ok c ∧ c.GuildID = g) :
    (∀ g, ((∃ v ∈ users, v.GuildID = g) ∨ (∃ v ∈ members, v.GuildID = g)) →
      (resolutions (ProcessBatch env users members db).log).count g = 1) ∧
    (∀ g, g ∈ resolutions (ProcessBatch env users members db).log →
      ((∃ v ∈ users, v.GuildID = g) ∨ (∃ v ∈ members, v.GuildID = g))) ∧
    (∃ ops, (ProcessBatch env users members db).log =
        [Op.prepareNick, Op.prepareUsername] ++
          (resolutions (ProcessBatch env users members db).log).map Op.getConfig ++ ops ∧
      ∀ o ∈ ops, isDetectorOp o = true) := by
  obtain ⟨L, ops, hlog, hd, hnd, hmem⟩ := ProcessBatch_log env users members db hprep hres
  have hL : resolutions (ProcessBatch env users members db).log = L := by
    rw [hlog, resolutions_append, resolutions_append, resolutions_getConfig,
      resolutions_detector ops hd]
    simp [resolutions]
  rw [hL]
  refine ⟨?_, ?_, ⟨ops, hlog, hd⟩⟩
  · intro g hg
    exact List.count_eq_one_of_mem hnd ((hmem g).2 hg)
  · intro g hg
    exact (hmem g).1 hg

/-- A witness for `ProcessBatch_resolves_each_guild_once`: guild 1 occurs twice among the
users and guild 2 in both lists; guild 1 is resolved once. -/
theorem ProcessBatch_resolves_each_guild_once_witness :
    (resolutions (ProcessBatch ⟨fun _ => false, fun _ g => Except.ok ⟨g, true, true⟩⟩
      [⟨1, ⟨7, "Alice"⟩⟩, ⟨2, ⟨8, "Bob"⟩⟩, ⟨1, ⟨9, "Carol"⟩⟩]
      [⟨2, ⟨8, "Bob"⟩, "B"⟩, ⟨3, ⟨7, "Alice"⟩, ""⟩] ⟨[], []⟩).log).count 1 = 1 :=
  (ProcessBatch_resolves_each_guild_once ⟨fun _ => false, fun _ g => Except.ok ⟨g, true, true⟩⟩
      [⟨1, ⟨7, "Alice"⟩⟩, ⟨2, ⟨8, "Bob"⟩⟩, ⟨1, ⟨9, "Carol"⟩⟩]
      [⟨2, ⟨8, "Bob"⟩, "B"⟩, ⟨3, ⟨7, "Alice"⟩, ""⟩] ⟨[], []⟩ ⟨rfl, rfl⟩
      (fun _ g => ⟨⟨g, true, true⟩, rfl, rfl⟩)).1 1
    (Or.inl ⟨⟨1, ⟨7, "Alice"⟩⟩, List.mem_cons_self _ _, rfl⟩)

/-! ## Stored usernames of one user -/

theorem lastUsernameRow_eq (db : DB) (u : Int) :
    lastUsernameRow db u = (usernamesOf db u).getLast? := by
  simp [lastUsernameRow, usernamesOf, List.getLast?_map]

theorem usernamesOf_append (db : DB) (l : UsernameListing) (u : Int) :
    usernamesOf { db with username_listings := db.username_listings ++ [l] } u =
      if l.UserID = u then usernamesOf db u ++ [l.Username] else usernamesOf db u := by
  unfold usernamesOf
  by_cases h : l.UserID = u
  · simp [List.filter_append, h]
  · simp [List.filter_append, h]

/-- A `CheckUsername` call without storage failure returns nil and records the username
for its user; the stored usernames of other users stay as they are. -/
theorem CheckUsername_ok (env : Env) (hf : ∀ n, env.fails n = false) (tx : Tx) (user : User) :
    (CheckUsername env tx user).1 = none ∧
    ∀ u, usernamesOf (CheckUsername env tx user).2.db u =
      if user.ID = u then recordName (usernamesOf tx.db u) user.Username
      else usernamesOf tx.db u := by
  rw [CheckUsername_read_ok env tx user (hf _)]
  by_cases h : lastUsernameRow tx.db user.ID = some user.Username
  · simp only [if_pos h, true_and]
    intro u
    by_cases hu : user.ID = u
    · subst hu
      rw [lastUsernameRow_eq] at h
      simp [recordName, h]
    · simp [hu]
  · simp only [if_neg h, insertUsernameListing, hf, Bool.false_eq_true, if_false, true_and]
    intro u
    rw [usernamesOf_append]
    by_cases hu : user.ID = u
    · subst hu
      rw [lastUsernameRow_eq] at h
      simp [recordName, h]
    · simp [hu]

/-- A `CheckNickname` call without storage failure returns nil and leaves
`username_listings` alone. -/
theorem CheckNickname_ok (env : Env) (hf : ∀ n, env.fails n = false) (tx : Tx)
    (u g : Int) (n : String) :
    (CheckNickname env tx u g n).1 = none ∧
    (CheckNickname env tx u g n).2.db.username_listings = tx.db.username_listings := by
  rw [CheckNickname_read_ok env tx u g n (hf _)]
  split
  · exact ⟨rfl, rfl⟩
  · simp [insertNicknameListing, hf]

theorem usernameLoggingDisabled_eq_false (configs : List GuildLoggingConfig) (g : Int)
    (hen : ∀ c ∈ configs, c.UsernameLoggingEnabled = true) :
    usernameLoggingDisabled configs g = false := by
  induction configs with
  | nil => rfl
  | cons c cs ih =>
    unfold usernameLoggingDisabled
    split
    · simp [hen c (List.mem_cons_self _ _)]
    · exact ih (fun c' hc' => hen c' (List.mem_cons_of_mem _ hc'))

theorem memberFlags_checkUser (configs : List GuildLoggingConfig) (g : Int)
    (hen : ∀ c ∈ configs, c.UsernameLoggingEnabled = true)
    (hg : g ∈ configs.map (fun c => c.GuildID)) :
    (memberFlags configs g).2 = true := by
  induction configs with
  | nil => simp at hg
  | cons c cs ih =>
    unfold memberFlags
    split
    · exact hen c (List.mem_cons_self _ _)
    · rename_i hne
      apply ih (fun c' hc' => hen c' (List.mem_cons_of_mem _ hc'))
      simp only [List.map_cons, List.mem_cons] at hg
      rcases hg with hg | hg
      · exact absurd hg.symm hne
      · exact hg

theorem recordNames_cons (S : List String) (n : String) (ns : List String) :
    recordNames S (n :: ns) = recordNames (recordName S n) ns := rfl

theorem recordNames_append (S : List String) (a b : List String) :
    recordNames S (a ++ b) = recordNames (recordNames S a) b := by
  simp [recordNames, List.foldl_append]

/-- The loop over the queued presence pairs, without storage failure and with username
logging on in every known config: it returns nil and records the usernames of the
pairs of user `u` in order. -/
theorem updateUsers_ok (env : Env) (hf : ∀ n, env.fails n = false)
    (configs : List GuildLoggingConfig)
    (hen : ∀ c ∈ configs, c.UsernameLoggingEnabled = true) (u : Int)
    (users : List UserGuildPair) (tx : Tx) :
    (updateUsers env configs users tx).1 = none ∧
    usernamesOf (updateUsers env configs users tx).2.db u =
      recordNames (usernamesOf tx.db u)
        ((users.filter (fun v => v.User.ID = u)).map (fun v => v.User.Username)) := by
  induction users generalizing tx with
  | nil => exact ⟨rfl, rfl⟩
  | cons v rest ih =>
    unfold updateUsers
    rw [usernameLoggingDisabled_eq_false configs v.GuildID hen]
    simp only [Bool.false_eq_true, if_false]
    obtain ⟨h1, h2⟩ := CheckUsername_ok env hf tx v.User
    cases hc : CheckUsername env tx v.User with
    | mk err tx1 =>
      rw [hc] at h1 h2
      simp only at h1 h2
      subst h1
      simp only []
      refine ⟨(ih tx1).1, ?_⟩
      rw [(ih tx1).2, h2 u]
      by_cases hu : v.User.ID = u
      · simp [hu, List.filter_cons, recordNames_cons]
      · simp [hu, List.filter_cons]

/-- The loop over the queued member events, without storage failure, with username
logging on in every known config and a config known for the guild of every member: it
returns nil and records the usernames of the members of user `u` in order. -/
theorem updateMembers_ok (env : Env) (hf : ∀ n, env.fails n = false)
    (configs : List GuildLoggingConfig)
    (hen : ∀ c ∈ configs, c.UsernameLoggingEnabled = true) (u : Int)
    (members : List Member)
    (hknown : ∀ v ∈ members, v.GuildID ∈ configs.map (fun c => c.GuildID)) (tx : Tx) :
    (updateMembers env configs members tx).1 = none ∧
    usernamesOf (updateMembers env configs members tx).2.db u =
      recordNames (usernamesOf tx.db u)
        ((members.filter (fun v => v.User.ID = u)).map (fun v => v.User.Username)) := by
  induction members generalizing tx with
  | nil => exact ⟨rfl, rfl⟩
  | cons v rest ih =>
    have ihr := ih (fun v' hv' => hknown v' (List.mem_cons_of_mem _ hv'))
    unfold updateMembers
    have hflag := memberFlags_checkUser configs v.GuildID hen
      (hknown v (List.mem_cons_self _ _))
    cases hm : memberFlags configs v.GuildID with
    | mk checkNick checkUser =>
      rw [hm] at hflag
      simp only at hflag
      subst hflag
      simp only [Bool.not_true, Bool.and_false, Bool.false_eq_true, if_false]
      obtain ⟨h1, h2⟩ := CheckUsername_ok env hf tx v.User
      cases hc : CheckUsername env tx v.User with
      | mk err tx1 =>
        rw [hc] at h1 h2
        simp only at h1 h2
        subst h1
        simp only []
        obtain ⟨h3, h4⟩ := CheckNickname_ok env hf tx1 v.User.ID v.GuildID v.Nick
        cases hn : CheckNickname env tx1 v.User.ID v.GuildID v.Nick with
        | mk err2 tx2 =>
          rw [hn] at h3 h4
          simp only at h3 h4
          subst h3
          simp only []
          refine ⟨(ihr tx2).1, ?_⟩
          have h5 : usernamesOf tx2.db u = usernamesOf tx1.db u := by
            simp [usernamesOf, h4]
          rw [(ihr tx2).2, h5, h2 u]
          by_cases hu : v.User.ID = u
          · simp [hu, List.filter_cons, recordNames_cons]
          · simp [hu, List.filter_cons]

/-- A batch without storage failure, whose resolver answers every request with a config
of the requested guild that has username logging on: `ProcessBatch` returns nil and has
recorded, for user `u`, first the usernames of the presence pairs and then those of the
member events. -/
theorem ProcessBatch_ok (env : Env) (hf : ∀ n, env.fails n = false)
    (hres : ∀ n g, ∃ c, env.GetConfigCached n g = Except.ok c ∧ c.GuildID = g ∧
      c.UsernameLoggingEnabled = true)
    (u : Int) (users : List UserGuildPair) (members : List Member) (db : DB) :
    (ProcessBatch env users members db).err = none ∧
    usernamesOf (ProcessBatch env users members db).db u =
      recordNames (usernamesOf db u)
        ((users.filter (fun v => v.User.ID = u)).map (fun v => v.User.Username) ++
          (members.filter (fun v => v.User.ID = u)).map (fun v => v.User.Username)) := by
  obtain ⟨L1, added1, e1, m1, q1, -, i1⟩ :=
    findConfigs_ok env (fun c : GuildLoggingConfig => c.UsernameLoggingEnabled = true) hres "users_configs"
      (users.map (fun v => v.GuildID)) []
      { db := db, log := [Op.prepareNick, Op.prepareUsername] }
  obtain ⟨L2, added2, e2, m2, q2, -, i2⟩ :=
    findConfigs_ok env (fun c : GuildLoggingConfig => c.UsernameLoggingEnabled = true) hres "members_configs"
      (members.map (fun v => v.GuildID)) ([] ++ added1)
      { db := db, log := [Op.prepareNick, Op.prepareUsername] ++ L1.map Op.getConfig }
  have hen : ∀ c ∈ [] ++ added1 ++ added2, c.UsernameLoggingEnabled = true := by
    intro c hc
    simp only [List.nil_append, List.mem_append] at hc
    rcases hc with hc | hc
    · exact q1 c hc
    · exact q2 c hc
  have hknown : ∀ v ∈ members,
      v.GuildID ∈ (([] : List GuildLoggingConfig) ++ added1 ++ added2).map
        (fun c => c.GuildID) := by
    intro v hv
    simp only [List.nil_append, List.map_append, List.mem_append, m2]
    by_cases h : v.GuildID ∈ added1.map (fun c => c.GuildID)
    · exact Or.inl h
    · refine Or.inr ((i2 v.GuildID).2 ⟨List.mem_map.2 ⟨v, hv, rfl⟩, ?_⟩)
      simpa using h
  simp only [ProcessBatch, SqlTX, ProcessBatchTx, Prepare, List.length_nil, hf,
    List.nil_append, List.length_singleton, Bool.false_eq_true, if_false]
  simp only [List.singleton_append] at e1 e2 ⊢
  rw [e1]
  simp only []
  rw [e2]
  simp only []
  revert hen hknown
  generalize ([] ++ added1 ++ added2) = configs
  generalize
    [Op.prepareNick, Op.prepareUsername] ++ L1.map Op.getConfig ++ L2.map Op.getConfig = log4
  intro hen hknown
  obtain ⟨h1, h2⟩ := updateUsers_ok env hf configs hen u users { db := db, log := log4 }
  cases hu : updateUsers env configs users { db := db, log := log4 } with
  | mk err5 tx5 =>
    rw [hu] at h1 h2
    simp only at h1 h2
    subst h1
    simp only []
    obtain ⟨h3, h4⟩ := updateMembers_ok env hf configs hen u members hknown tx5
    cases hm : updateMembers env configs members tx5 with
    | mk err6 tx6 =>
      rw [hm] at h3 h4
      simp only at h3 h4
      subst h3
      simp only [true_and]
      rw [h4, h2, recordNames_append]

/-! ## Collapsing adjacent duplicates -/

theorem recordNames_snoc (S : List String) (a : String) (names : List String) :
    recordNames (S ++ [a]) names = S ++ List.destutter' (fun x y => x ≠ y) a names := by
  induction names generalizing S a with
  | nil => simp [recordNames]
  | cons n ns ih =>
    rw [recordNames_cons]
    by_cases h : a = n
    · subst h
      have : recordName (S ++ [a]) a = S ++ [a] := by simp [recordName]
      rw [this, ih]
      simp [List.destutter']
    · have : recordName (S ++ [a]) n = (S ++ [a]) ++ [n] := by
        simp [recordName, h]
      rw [this, ih]
      simp [List.destutter', h]

/-- Handling a list of usernames for a user without stored usernames stores the list
with adjacent duplicates collapsed. -/
theorem recordNames_nil (names : List String) :
    recordNames [] names = names.destutter (fun x y => x ≠ y) := by
  cases names with
  | nil => rfl
  | cons n ns =>
    rw [recordNames_cons]
    have : recordName [] n = [] ++ [n] := by simp [recordName]
    rw [this, recordNames_snoc]
    simp [List.destutter]

/-! ## The accumulator loop and the stored usernames -/

theorem EvtProcesser_cons (x : Select) (rest : List Select) (s : Processer) :
    EvtProcesser (x :: rest) s = EvtProcesser rest (EvtProcesser_step s x) := rfl

theorem EvtProcesser_recv_db (e : Evt) (s : Processer) : (EvtProcesser_recv e s).db = s.db := by
  cases e <;> simp only [EvtProcesser_recv]
  split <;> rfl

theorem EvtProcesser_recv_queuedUsers (u : Int) (e : Evt) (s : Processer) :
    ((EvtProcesser_recv e s).queuedUsers.filter (fun v => v.User.ID = u)).map
        (fun v => v.User.Username) =
      (s.queuedUsers.filter (fun v => v.User.ID = u)).map (fun v => v.User.Username) ++
        (presenceUsername u e).toList := by
  cases e with
  | PresenceUpdate t =>
    simp only [EvtProcesser_recv, presenceUsername]
    by_cases hn : t.User.Username = ""
    · simp [hn]
    · by_cases hu : t.User.ID = u
      · simp [hn, hu, List.filter_append]
      · simp [hn, hu, List.filter_append]
  | GuildMemberUpdate m => simp [EvtProcesser_recv, presenceUsername]
  | GuildMemberAdd m => simp [EvtProcesser_recv, presenceUsername]
  | Member m => simp [EvtProcesser_recv, presenceUsername]
  | other => simp [EvtProcesser_recv, presenceUsername]

theorem EvtProcesser_recv_queuedMembers (u : Int) (e : Evt) (s : Processer) :
    ((EvtProcesser_recv e s).queuedMembers.filter (fun v => v.User.ID = u)).map
        (fun v => v.User.Username) =
      (s.queuedMembers.filter (fun v => v.User.ID = u)).map (fun v => v.User.Username) ++
        (memberUsername u e).toList := by
  cases e with
  | PresenceUpdate t =>
    simp only [EvtProcesser_recv, memberUsername]
    split <;> simp
  | GuildMemberUpdate m =>
    by_cases hu : m.User.ID = u <;> simp [EvtProcesser_recv, memberUsername, hu, List.filter_append]
  | GuildMemberAdd m =>
    by_cases hu : m.User.ID = u <;> simp [EvtProcesser_recv, memberUsername, hu, List.filter_append]
  | Member m =>
    by_cases hu : m.User.ID = u <;> simp [EvtProcesser_recv, memberUsername, hu, List.filter_append]
  | other => simp [EvtProcesser_recv, memberUsername]

theorem filterMap_snoc {α β : Type} (f : α → Option β) (l : List α) (a : α) :
    (l ++ [a]).filterMap f = l.filterMap f ++ (f a).toList := by
  rw [List.filterMap_append]
  cases h : f a <;> simp [List.filterMap_cons, h]

/-- The stored usernames of user `u` after a schedule whose ticks all run without storage
failure and with username logging on in every guild, started in any loop state whose
buffers hold what the events `seg` received since the previous tick brought in. -/
theorem EvtProcesser_usernames_from (u : Int) (schedule : List Select)
    (henv : ∀ env, Select.tick env ∈ schedule →
      (∀ n, env.fails n = false) ∧
      ∀ n g, ∃ c, env.GetConfigCached n g = Except.ok c ∧ c.GuildID = g ∧
        c.UsernameLoggingEnabled = true)
    (s : Processer) (seg : List Evt)
    (hU : (s.queuedUsers.filter (fun v => v.User.ID = u)).map (fun v => v.User.Username) =
      seg.filterMap (presenceUsername u))
    (hM : (s.queuedMembers.filter (fun v => v.User.ID = u)).map (fun v => v.User.Username) =
      seg.filterMap (memberUsername u)) :
    usernamesOf (EvtProcesser schedule s).db u =
      recordNames (usernamesOf s.db u) (handledUsernames u seg schedule) := by
  induction schedule generalizing s seg with
  | nil => rfl
  | cons x rest ih =>
    have henv' : ∀ env, Select.tick env ∈ rest →
        (∀ n, env.fails n = false) ∧
        ∀ n g, ∃ c, env.GetConfigCached n g = Except.ok c ∧ c.GuildID = g ∧
          c.UsernameLoggingEnabled = true :=
      fun env h => henv env (List.mem_cons_of_mem _ h)
    rw [EvtProcesser_cons]
    cases x with
    | recv e =>
      simp only [EvtProcesser_step, handledUsernames]
      rw [ih henv' (EvtProcesser_recv e s) (seg ++ [e])
        (by rw [EvtProcesser_recv_queuedUsers, hU, filterMap_snoc])
        (by rw [EvtProcesser_recv_queuedMembers, hM, filterMap_snoc]),
        EvtProcesser_recv_db]
    | tick env =>
      obtain ⟨hf, hres⟩ := henv env (List.mem_cons_self _ _)
      obtain ⟨h1, h2⟩ := ProcessBatch_ok env hf hres u s.queuedUsers s.queuedMembers s.db
      simp only [EvtProcesser_step, handledUsernames, EvtProcesser_tick, h1, if_true]
      rw [ih henv' _ [] (by simp) (by simp)]
      simp only []
      rw [h2, hU, hM, ← recordNames_append]

/-- C3 (as stated, refuted): with username logging on in every guild, no storage failure
and empty tables, user 7 is seen first in a member event as "Bob" and then in a presence
event as "Alice"; after the tick the stored usernames of user 7 are "Alice", "Bob",
whereas the observed usernames with adjacent duplicates collapsed are "Bob", "Alice". -/
theorem EvtProcesser_usernames_out_of_order :
    usernamesOf (EvtProcesser
      [Select.recv (Evt.Member ⟨1, ⟨7, "Bob"⟩, ""⟩),
       Select.recv (Evt.PresenceUpdate ⟨1, ⟨7, "Alice"⟩, ""⟩),
       Select.tick ⟨fun _ => false, fun _ g => Except.ok ⟨g, true, true⟩⟩]
      (Processer.start ⟨[], []⟩)).db 7 = ["Alice", "Bob"] ∧
    (observedUsernames
      [Select.recv (Evt.Member ⟨1, ⟨7, "Bob"⟩, ""⟩),
       Select.recv (Evt.PresenceUpdate ⟨1, ⟨7, "Alice"⟩, ""⟩),
       Select.tick ⟨fun _ => false, fun _ g => Except.ok ⟨g, true, true⟩⟩]).destutter
        (fun a b => a ≠ b) = ["Bob", "Alice"] := by
  decide

/-- C3 (amended): for every schedule of received events and ticks in which every tick
runs without storage failure and with username logging on in every guild, started with
empty buffers over tables holding no username row of user `u`, the stored usernames of
`u` (in creation order) are the usernames of `u` in the order the ticks handle them,
with adjacent duplicates collapsed: at each tick first the usernames of the presence
events received since the previous tick, those with an empty username left out, then
the usernames of the member events received since the previous tick. -/
theorem EvtProcesser_usernames_collapsed (u : Int) (schedule : List Select) (db : DB)
    (hstart : ∀ l ∈ db.username_listings, l.UserID ≠ u)
    (henv : ∀ env, Select.tick env ∈ schedule →
      (∀ n, env.fails n = false) ∧
      ∀ n g, ∃ c, env.GetConfigCached n g = Except.ok c ∧ c.GuildID = g ∧
        c.UsernameLoggingEnabled = true) :
    usernamesOf (EvtProcesser schedule (Processer.start db)).db u =
      (handledUsernames u [] schedule).destutter (fun a b => a ≠ b) := by
  have h0 : usernamesOf db u = [] := by
    unfold usernamesOf
    rw [List.map_eq_nil_iff, List.filter_eq_nil_iff]
    intro l hl
    simpa using hstart l hl
  rw [EvtProcesser_usernames_from u schedule henv (Processer.start db) [] rfl rfl]
  show recordNames (usernamesOf db u) _ = _
  rw [h0, recordNames_nil]

/-- A witness for `EvtProcesser_usernames_collapsed`: two ticks for user 7; the second
tick handles the presence username "Bob" before the member username "Alice", and the
presence event with an empty username is left out. -/
theorem EvtProcesser_usernames_collapsed_witness :
    usernamesOf (EvtProcesser
      [Select.recv (Evt.PresenceUpdate ⟨1, ⟨7, "Alice"⟩, ""⟩),
       Select.recv (Evt.PresenceUpdate ⟨2, ⟨7, "Alice"⟩, ""⟩),
       Select.tick ⟨fun _ => false, fun _ g => Except.ok ⟨g, true, false⟩⟩,
       Select.recv (Evt.GuildMemberUpdate ⟨1, ⟨7, "Alice"⟩, "Al"⟩),
       Select.recv (Evt.PresenceUpdate ⟨1, ⟨7, "Bob"⟩, "Al"⟩),
       Select.recv (Evt.PresenceUpdate ⟨1, ⟨7, ""⟩, "Al"⟩),
       Select.tick ⟨fun _ => false, fun _ g => Except.ok ⟨g, true, false⟩⟩]
      (Processer.start ⟨[], []⟩)).db 7 = ["Alice", "Bob", "Alice"] :=
  (EvtProcesser_usernames_collapsed 7
      [Select.recv (Evt.PresenceUpdate ⟨1, ⟨7, "Alice"⟩, ""⟩),
       Select.recv (Evt.PresenceUpdate ⟨2, ⟨7, "Alice"⟩, ""⟩),
       Select.tick ⟨fun _ => false, fun _ g => Except.ok ⟨g, true, false⟩⟩,
       Select.recv (Evt.GuildMemberUpdate ⟨1, ⟨7, "Alice"⟩, "Al"⟩),
       Select.recv (Evt.PresenceUpdate ⟨1, ⟨7, "Bob"⟩, "Al"⟩),
       Select.recv (Evt.PresenceUpdate ⟨1, ⟨7, ""⟩, "Al"⟩),
       Select.tick ⟨fun _ => false, fun _ g => Except.ok ⟨g, true, false⟩⟩]
      ⟨[], []⟩ (by simp)
      (by
        intro env h
        simp only [List.mem_cons, List.mem_singleton, Select.tick.injEq, List.not_mem_nil,
          or_false, false_or, reduceCtorEq, or_self] at h
        subst h
        exact ⟨fun _ => rfl, fun _ g => ⟨_, rfl, rfl, rfl⟩⟩)).trans (by decide)

/-! ## Deletion marker -/

theorem markAndLog_rows (fails : Nat → Bool) (hf : ∀ n, fails n = false) (st : MessageLog)
    (mID : Int) :
    (markAndLog fails st mID).rows =
      st.rows.map (fun r => if r.ID = mID then { r with Deleted := true } else r) := by
  simp [markAndLog, markLoggedMessageAsDeleted, hf]

theorem markedRow_cons (mID : Int) (ids : List Int) (r : Messages2) :
    markedRow ids (if r.ID = mID then { r with Deleted := true } else r) =
      markedRow (mID :: ids) r := by
  unfold markedRow
  by_cases h1 : r.ID = mID
  · by_cases h2 : r.ID ∈ ids
    · simp [h1, h2]
    · simp [h1]
  · by_cases h2 : r.ID ∈ ids
    · simp [h1, h2]
    · simp [h1, h2]

theorem foldl_markAndLog_rows (fails : Nat → Bool) (hf : ∀ n, fails n = false)
    (ids : List Int) (st : MessageLog) :
    (ids.foldl (markAndLog fails) st).rows = st.rows.map (markedRow ids) := by
  induction ids generalizing st with
  | nil =>
    simp only [List.foldl_nil]
    have : markedRow [] = id := by funext r; simp [markedRow]
    rw [this, List.map_id]
  | cons mID rest ih =>
    rw [List.foldl_cons, ih, markAndLog_rows fails hf, List.map_map]
    apply List.map_congr_left
    intro r _
    exact markedRow_cons mID rest r

theorem markedRow_idem (ids : List Int) (r : Messages2) :
    markedRow ids (markedRow ids r) = markedRow ids r := by
  unfold markedRow
  by_cases h : r.ID ∈ ids <;> simp [h]

/-- C11: when no update fails, `HandleMsgDelete` on a bulk deletion event for the ids
`ids` turns the table into the original table with every row replaced by `markedRow`:
a row whose id is in the list has its deleted flag true and its other fields as before,
and a row whose id is not in the list is unchanged. Hence a flag that is already true
stays true, and handling the same event twice gives the same table as handling it
once. -/
theorem HandleMsgDelete_bulk_marks (fails : Nat → Bool) (ids : List Int) (st : MessageLog)
    (hf : ∀ n, fails n = false) :
    (HandleMsgDelete fails (DeleteEvent.MessageDeleteBulk ids) st).rows =
        st.rows.map (markedRow ids) ∧
    (∀ r : Messages2, r.ID ∈ ids →
      (markedRow ids r).Deleted = true ∧ (markedRow ids r).ID = r.ID ∧
      (markedRow ids r).Content = r.Content) ∧
    (∀ r : Messages2, r.ID ∉ ids → markedRow ids r = r) ∧
    (∀ r : Messages2, r.Deleted = true → markedRow ids r = r) ∧
    (HandleMsgDelete fails (DeleteEvent.MessageDeleteBulk ids)
        (HandleMsgDelete fails (DeleteEvent.MessageDeleteBulk ids) st)).rows =
      (HandleMsgDelete fails (DeleteEvent.MessageDeleteBulk ids) st).rows := by
  refine ⟨foldl_markAndLog_rows fails hf ids st, ?_, ?_, ?_, ?_⟩
  · intro r hr
    simp [markedRow, hr]
  · intro r hr
    simp [markedRow, hr]
  · intro r hr
    unfold markedRow
    split
    · cases r; simp_all
    · rfl
  · simp only [HandleMsgDelete]
    rw [foldl_markAndLog_rows fails hf, foldl_markAndLog_rows fails hf, List.map_map]
    apply List.map_congr_left
    intro r _
    exact markedRow_idem ids r

/-- A witness for `HandleMsgDelete_bulk_marks`: the bulk event carries the ids 1, 2, 3;
afterwards the three rows report deleted, the row of message 2, which was already
deleted, still does, and the row of message 4 is untouched. -/
theorem HandleMsgDelete_bulk_marks_witness :
    (HandleMsgDelete (fun _ => false) (DeleteEvent.MessageDeleteBulk [1, 2, 3])
      ⟨[⟨1, false, "a"⟩, ⟨2, true, "b"⟩, ⟨3, false, "c"⟩, ⟨4, false, "d"⟩], 0, []⟩).rows =
      [⟨1, true, "a"⟩, ⟨2, true, "b"⟩, ⟨3, true, "c"⟩, ⟨4, false, "d"⟩] :=
  (HandleMsgDelete_bulk_marks (fun _ => false) [1, 2, 3]
    ⟨[⟨1, false, "a"⟩, ⟨2, true, "b"⟩, ⟨3, false, "c"⟩, ⟨4, false, "d"⟩], 0, []⟩
    (fun _ => rfl)).1.trans (by decide)

/-- The function `queueEvt` never refuses an event: with fewer than 1000 events buffered
the event goes to the end of the buffer, otherwise it is handed to a new one-shot
sender; the events that were already buffered or held by senders stay where they
are. -/
theorem queueEvt_places (evt : Evt) (ch : Chan) :
    (ch.buf.length < 1000 →
      queueEvt evt ch = { buf := ch.buf ++ [evt], senders := ch.senders }) ∧
    (1000 ≤ ch.buf.length →
      queueEvt evt ch = { buf := ch.buf, senders := ch.senders ++ [evt] }) := by
  unfold queueEvt
  constructor
  · intro h; simp [h]
  · intro h; simp [Nat.not_lt.2 h]

end Logs
